import Mathlib

/-!
Shallow embedding of `src/mapping.ts` of the treasure-marketplace-subgraph
repository: the four listing-lifecycle handlers (list, update, cancel, sell),
the floor-price recalculator `updateCollectionFloorAndTotal`, and
`formatPrice`.  The graph-ts `BigInt` is arbitrary-precision, so it is
embedded as `Int`; entity ids are `String`; the durable entity store is an
association list per entity kind, in insertion order.

The repository's `src/helpers.ts` (identifier derivation, get-or-create
accessors, the explorer-host constant) is not under `src/`; those definitions
are modelled from the spec and marked as such in their doc comments.
-/

set_option maxHeartbeats 1000000

namespace TreasureMarketplace

/-- Load-by-key from a keyed entity store (first entry with the key wins). -/
def storeGet {α : Type} : List (String × α) → String → Option α
  | [], _ => none
  | p :: t, k => if p.1 = k then some p.2 else storeGet t k

/-- Save/upsert into a keyed entity store: overwrite in place when the key is
present, append otherwise. -/
def storeSet {α : Type} (l : List (String × α)) (k : String) (v : α) : List (String × α) :=
  if (storeGet l k).isSome then l.map (fun p => if p.1 = k then (k, v) else p)
  else l ++ [(k, v)]

/-- Delete-by-key from a keyed entity store. -/
def storeRemove {α : Type} (l : List (String × α)) (k : String) : List (String × α) :=
  l.filter (fun p => decide (p.1 ≠ k))

/-- `array.slice(0, index).concat(array.slice(index + 1))` from
`updateCollectionFloorAndTotal`: drop the element at position `i`
(a no-op when `i ≥ length`). -/
def removeAt {α : Type} (l : List α) (i : Nat) : List α :=
  l.take i ++ l.drop (i + 1)

/-- AssemblyScript `String#slice` with negative-index clamping, on the
character list of the string. -/
def jsSlice (s : List Char) (a b : Int) : List Char :=
  let len : Int := s.length
  let st : Nat := (if a < 0 then max (len + a) 0 else min a len).toNat
  let en : Nat := (if b < 0 then max (len + b) 0 else min b len).toNat
  (s.take en).drop st

/-- `formatPrice` from `mapping.ts` lines 34-47: `"0"` for zero; otherwise the
digits left of the last 18 become the whole part and the last 18 digits have
every `'0'` removed (`.split("0").join("")`), with a dot only when the
remaining fractional digits are nonempty. -/
def formatPrice (number : Int) : String :=
  if number = 0 then "0"
  else
    let input := (toString number).data
    let value := jsSlice input 0 (-18)
    let decimals := (jsSlice input (-18) input.length).filter (fun c => decide (c ≠ '0'))
    String.mk (value ++ (if decimals.length > 0 then ['.'] else []) ++ decimals)

/-- Listing entity (generated/schema).  `blockTimestamp` is the timestamp of
the listing or of its last price change; the buyer/price-string/link fields
are populated only on sold records. -/
structure Listing where
  blockTimestamp : Int
  collection : String
  collectionName : String
  expires : Int
  pricePerItem : Int
  quantity : Int
  status : String
  token : String
  tokenName : String
  user : String
  buyer : String
  nicePrice : String
  totalPrice : String
  transactionLink : String
deriving Repr, DecidableEq

/-- Collection entity. -/
structure Collection where
  name : String
  standard : String
  floorPrice : Int
  totalListings : Int
  listingIds : List String
deriving Repr, DecidableEq

/-- Token entity.  `floorPrice` is a nullable BigInt in the schema (the
`!tokenFloorPrice` null-checks in `mapping.ts`), hence `Option Int`. -/
structure Token where
  collection : String
  name : String
  floorPrice : Option Int
deriving Repr, DecidableEq

/-- UserToken entity: a seller's un-listed inventory for a token. -/
structure UserToken where
  quantity : Int
  token : String
  user : String
deriving Repr, DecidableEq

/-- The durable store: one keyed table per entity kind.  The User entity is
omitted: no handler in `src/mapping.ts` ever persists a User. -/
structure Store where
  listings : List (String × Listing)
  collections : List (String × Collection)
  tokens : List (String × Token)
  userTokens : List (String × UserToken)
deriving Repr, DecidableEq

def emptyStore : Store := ⟨[], [], [], []⟩

/-- Modelled from the spec: `listingKey(seller, contract, tokenId)` from the
missing `src/helpers.ts`, an order-sensitive concatenation of the inputs into
one string key.  Addresses are already embedded as strings. -/
def getListingId (seller nftAddress : String) (tokenId : Int) : String :=
  seller ++ "-" ++ nftAddress ++ "-" ++ toString tokenId

/-- Modelled from the spec: `tokenKey(contract, tokenId)` from the missing
`src/helpers.ts`. -/
def getTokenId (nftAddress : String) (tokenId : Int) : String :=
  nftAddress ++ "-" ++ toString tokenId

/-- Modelled from the spec: the fixed block-explorer host constant from the
missing `src/helpers.ts`. -/
def EXPLORER : String := "arbiscan.io"

def defaultListing : Listing :=
  { blockTimestamp := 0, collection := "", collectionName := "", expires := 0
    pricePerItem := 0, quantity := 0, status := "", token := "", tokenName := ""
    user := "", buyer := "", nicePrice := "", totalPrice := "", transactionLink := "" }

def defaultCollection : Collection :=
  { name := "", standard := "", floorPrice := 0, totalListings := 0, listingIds := [] }

def defaultUserToken : UserToken := { quantity := 0, token := "", user := "" }

/-- Modelled from the spec: `getOrCreateListing` from the missing
`src/helpers.ts` — load by key, else materialize a zero/empty default without
persisting it; it never yields null. -/
def getOrCreateListing (s : Store) (id : String) : Listing :=
  (storeGet s.listings id).getD defaultListing

/-- Modelled from the spec: `getOrCreateCollection` from the missing
`src/helpers.ts` (zero/empty defaults, not persisted on creation). -/
def getOrCreateCollection (s : Store) (id : String) : Collection :=
  (storeGet s.collections id).getD defaultCollection

/-- Modelled from the spec: `getOrCreateToken` from the missing
`src/helpers.ts`; a fresh Token carries its owning collection reference (the
token-contract address), with no floor price recorded yet. -/
def getOrCreateToken (s : Store) (id : String) (collectionId : String) : Token :=
  (storeGet s.tokens id).getD { collection := collectionId, name := "", floorPrice := none }

/-- Modelled from the spec: `getOrCreateUserToken` from the missing
`src/helpers.ts` (zero quantity default, not persisted on creation). -/
def getOrCreateUserToken (s : Store) (id : String) : UserToken :=
  (storeGet s.userTokens id).getD defaultUserToken

/-- The floor-candidate update of `mapping.ts` lines 83-85 and 158-160:
`if (floorPrice.isZero() || floorPrice.gt(pricePerItem)) floorPrice = pricePerItem`.
Zero acts as the "no floor yet" sentinel. -/
def sentinelMin (acc x : Int) : Int :=
  if acc = 0 ∨ x < acc then x else acc

/-- The nullable-token-floor condition of `mapping.ts` lines 75-78 and 165-168:
`!tokenFloorPrice || tokenFloorPrice.gt(pricePerItem)`. -/
def tokenFloorBeats (fp : Option Int) (p : Int) : Bool :=
  match fp with
  | none => true
  | some v => decide (p < v)

/-- Loop state of the scan in `updateCollectionFloorAndTotal`: the running
collection floor, the (mutated-while-iterating) listing index, and the
per-token floor `TypedMap`. -/
structure ScanState where
  floorPrice : Int
  listingIds : List String
  floorPrices : List (String × Int)
deriving Repr, DecidableEq

/-- One iteration of the loop at `mapping.ts` lines 65-91, at snapshot index
`idx` over snapshot entry `lid`.  An absent or non-Active listing prunes
position `idx` out of the *current* (already pruned) index — exactly the
source's `slice(0, index).concat(slice(index + 1))`. -/
def scanStep (listings : List (String × Listing)) (standard : String)
    (st : ScanState) (idx : Nat) (lid : String) : ScanState :=
  match storeGet listings lid with
  | some listing =>
    if listing.status = "Active" then
      let st :=
        if standard = "ERC1155" ∧ tokenFloorBeats (storeGet st.floorPrices listing.token) listing.pricePerItem then
          { st with floorPrices := storeSet st.floorPrices listing.token listing.pricePerItem }
        else st
      { st with floorPrice := sentinelMin st.floorPrice listing.pricePerItem }
    else { st with listingIds := removeAt st.listingIds idx }
  | none => { st with listingIds := removeAt st.listingIds idx }

/-- The loop of `mapping.ts` lines 65-91 over the snapshot of `listingIds`
taken at line 61. -/
def scanLoop (listings : List (String × Listing)) (standard : String) :
    List String → Nat → ScanState → ScanState
  | [], _, st => st
  | lid :: rest, idx, st =>
      scanLoop listings standard rest (idx + 1) (scanStep listings standard st idx lid)

/-- `updateCollectionFloorAndTotal` (`mapping.ts` lines 49-108): no-op when the
collection is absent; otherwise reset the floor, scan/prune the listing index,
persist recomputed per-token floors for tokens that exist in the store, set
`totalListings` to the post-prune index length, and save the collection. -/
def updateCollectionFloorAndTotal (id : String) (s : Store) : Store :=
  match storeGet s.collections id with
  | none => s
  | some collection =>
    let st := scanLoop s.listings collection.standard collection.listingIds 0
      { floorPrice := 0, listingIds := collection.listingIds, floorPrices := [] }
    let tokens := st.floorPrices.foldl (fun ts kv =>
      match storeGet ts kv.1 with
      | some tok => storeSet ts kv.1 { tok with floorPrice := some kv.2 }
      | none => ts) s.tokens
    { s with
      tokens := tokens
      collections := storeSet s.collections id
        { collection with
          floorPrice := st.floorPrice
          listingIds := st.listingIds
          totalListings := (st.listingIds.length : Int) } }

/-- ItemListed event payload. -/
structure ItemListedEvent where
  seller : String
  nftAddress : String
  tokenId : Int
  quantity : Int
  pricePerItem : Int
  expirationTime : Int
  blockTimestamp : Int
deriving Repr, DecidableEq

/-- ItemUpdated event payload. -/
structure ItemUpdatedEvent where
  seller : String
  nftAddress : String
  tokenId : Int
  quantity : Int
  pricePerItem : Int
  expirationTime : Int
  blockTimestamp : Int
deriving Repr, DecidableEq

/-- ItemCanceled event payload. -/
structure ItemCanceledEvent where
  seller : String
  nftAddress : String
  tokenId : Int
deriving Repr, DecidableEq

/-- ItemSold event payload. -/
structure ItemSoldEvent where
  seller : String
  buyer : String
  nftAddress : String
  tokenId : Int
  quantity : Int
  blockTimestamp : Int
  logIndex : Int
  txHash : String
deriving Repr, DecidableEq

/-- `handleItemListed` (`mapping.ts` lines 144-199). -/
def handleItemListed (e : ItemListedEvent) (s : Store) : Store :=
  let listingId := getListingId e.seller e.nftAddress e.tokenId
  let tokenKey := getTokenId e.nftAddress e.tokenId
  let listing := getOrCreateListing s listingId
  let token := getOrCreateToken s tokenKey e.nftAddress
  let collection := getOrCreateCollection s token.collection
  let collection := { collection with floorPrice := sentinelMin collection.floorPrice e.pricePerItem }
  let erc1155 := collection.standard = "ERC1155" ∧ tokenFloorBeats token.floorPrice e.pricePerItem
  let collection := { collection with
    listingIds := collection.listingIds ++ [listingId]
    totalListings := collection.totalListings + 1 }
  let listing := { listing with
    blockTimestamp := e.blockTimestamp
    collection := token.collection
    collectionName := collection.name
    expires := e.expirationTime
    pricePerItem := e.pricePerItem
    quantity := e.quantity
    status := "Active"
    token := tokenKey
    tokenName := token.name
    user := e.seller }
  let userToken := getOrCreateUserToken s listingId
  { s with
    tokens :=
      (if erc1155 then storeSet s.tokens tokenKey { token with floorPrice := some e.pricePerItem }
       else s.tokens)
    userTokens :=
      (if userToken.quantity = e.quantity then storeRemove s.userTokens listingId
       else storeSet s.userTokens listingId { userToken with quantity := userToken.quantity - e.quantity })
    collections := storeSet s.collections token.collection collection
    listings := storeSet s.listings listingId listing }

/-- `handleItemCanceled` (`mapping.ts` lines 110-142).  The three null guards
can never fire: the get-or-create accessors always materialize a value. -/
def handleItemCanceled (e : ItemCanceledEvent) (s : Store) : Store :=
  let listingId := getListingId e.seller e.nftAddress e.tokenId
  let listing := getOrCreateListing s listingId
  let userToken := getOrCreateUserToken s listingId
  let userToken := { userToken with
    quantity := userToken.quantity + listing.quantity
    token := listing.token
    user := listing.user }
  let s := { s with
    listings := storeRemove s.listings listingId
    userTokens := storeSet s.userTokens listingId userToken }
  updateCollectionFloorAndTotal e.nftAddress s

/-- `handleItemSold` (`mapping.ts` lines 201-255).  The `!listing` guard can
never fire (get-or-create materializes a default), so a sale with no stored
listing still proceeds on the default.  `sold.quantity` is a materialized
(non-null) BigInt, so the AssemblyScript truthiness test on it always takes
the accumulate branch. -/
def handleItemSold (e : ItemSoldEvent) (s : Store) : Store :=
  let listingId := getListingId e.seller e.nftAddress e.tokenId
  let listing := getOrCreateListing s listingId
  let s := { s with listings :=
    (if listing.quantity = e.quantity then storeRemove s.listings listingId
     else storeSet s.listings listingId { listing with quantity := listing.quantity - e.quantity }) }
  let staleKey := listingId ++ "-" ++ toString e.logIndex
  let s := { s with listings :=
    (if (storeGet s.listings staleKey).isSome then storeRemove s.listings staleKey
     else s.listings) }
  let soldKey := listingId ++ "-" ++ toString listing.blockTimestamp
  let sold := getOrCreateListing s soldKey
  let updatedQuantity := sold.quantity + e.quantity
  let sold := { sold with
    blockTimestamp := e.blockTimestamp
    buyer := e.buyer
    collection := listing.collection
    collectionName := listing.collectionName
    expires := 0
    pricePerItem := listing.pricePerItem
    nicePrice := formatPrice listing.pricePerItem
    quantity := updatedQuantity
    status := "Sold"
    token := listing.token
    tokenName := listing.tokenName
    totalPrice := formatPrice (listing.pricePerItem * updatedQuantity)
    transactionLink := "https://" ++ EXPLORER ++ "/tx/" ++ e.txHash
    user := e.seller }
  let s := { s with listings := storeSet s.listings soldKey sold }
  updateCollectionFloorAndTotal e.nftAddress s

/-- `handleItemUpdated` (`mapping.ts` lines 257-301): a genuine `Listing.load`,
so an absent listing returns with no mutation. -/
def handleItemUpdated (e : ItemUpdatedEvent) (s : Store) : Store :=
  match storeGet s.listings (getListingId e.seller e.nftAddress e.tokenId) with
  | none => s
  | some listing =>
    let listingId := getListingId e.seller e.nftAddress e.tokenId
    let s := { s with userTokens :=
      (if listing.quantity = e.quantity then s.userTokens
       else
        let userToken := getOrCreateUserToken s listingId
        let userToken := { userToken with quantity := userToken.quantity + (listing.quantity - e.quantity) }
        if userToken.quantity = 0 then storeRemove s.userTokens listingId
        else storeSet s.userTokens listingId { userToken with token := listing.token, user := listing.user }) }
    let listing :=
      if listing.pricePerItem = e.pricePerItem then listing
      else { listing with blockTimestamp := e.blockTimestamp }
    let listing := { listing with
      quantity := e.quantity
      pricePerItem := e.pricePerItem
      expires := e.expirationTime }
    let s := { s with listings := storeSet s.listings listingId listing }
    updateCollectionFloorAndTotal e.nftAddress s

/-- The marketplace events consumed by the four mutating handlers. -/
inductive Event where
  | listed (e : ItemListedEvent)
  | updated (e : ItemUpdatedEvent)
  | canceled (e : ItemCanceledEvent)
  | sold (e : ItemSoldEvent)
deriving Repr, DecidableEq

/-- Dispatch one event to its handler. -/
def processEvent : Event → Store → Store
  | .listed e, s => handleItemListed e s
  | .updated e, s => handleItemUpdated e s
  | .canceled e, s => handleItemCanceled e s
  | .sold e, s => handleItemSold e s

/-- Process a finite event sequence in order. -/
def processEvents (es : List Event) (s : Store) : Store :=
  es.foldl (fun s e => processEvent e s) s

/-! Claim-side definitions: the quantities the spec's properties talk about. -/

/-- Minimum of a list of integers, taken as zero for the empty list. -/
def minOrZero : List Int → Int
  | [] => 0
  | p :: ps => ps.foldl min p

/-- Prices of all stored listings with status Active referencing a collection. -/
def activePrices (s : Store) (collId : String) : List Int :=
  (s.listings.filter (fun p => p.2.status == "Active" && p.2.collection == collId)).map
    (fun p => p.2.pricePerItem)

/-- The spec's floor: the minimum `pricePerItem` over all stored listings with
status Active referencing the collection, or zero if there are none. -/
def activeFloor (s : Store) (collId : String) : Int :=
  minOrZero (activePrices s collId)

/-- The stored listing at key `k` is Active. -/
def lookActive (L : List (String × Listing)) (k : String) : Prop :=
  match storeGet L k with
  | some l => l.status = "Active"
  | none => False

/-- The stored listing at key `k` is Active and references collection `a`. -/
def activeFor (L : List (String × Listing)) (k a : String) : Prop :=
  match storeGet L k with
  | some l => l.status = "Active" ∧ l.collection = a
  | none => False

/-- Price of the stored listing at key `k` (zero when absent). -/
def priceOf (L : List (String × Listing)) (k : String) : Int :=
  ((storeGet L k).map (fun l => l.pricePerItem)).getD 0

instance lookActiveDecidable (L : List (String × Listing)) (k : String) :
    Decidable (lookActive L k) := by
  unfold lookActive
  cases storeGet L k with
  | none => exact isFalse (fun h => h)
  | some l => exact (inferInstance : Decidable (l.status = "Active"))

instance activeForDecidable (L : List (String × Listing)) (k a : String) :
    Decidable (activeFor L k a) := by
  unfold activeFor
  cases storeGet L k with
  | none => exact isFalse (fun h => h)
  | some l => exact (inferInstance : Decidable (l.status = "Active" ∧ l.collection = a))

/-- A seller's inventory for a token: the UserToken quantity at the derived
(seller, contract, tokenId) key (zero when absent) plus the quantity of the
seller's Active listing for that token.  The data model keys a seller's
listing for a token by the same derived key, so there is at most one. -/
def inventoryAt (s : Store) (seller nftAddress : String) (tokenId : Int) : Int :=
  (((storeGet s.userTokens (getListingId seller nftAddress tokenId)).map
    (fun u => u.quantity)).getD 0) +
  (match storeGet s.listings (getListingId seller nftAddress tokenId) with
   | some l => if l.status = "Active" then l.quantity else 0
   | none => 0)

/-- A string free of the `'-'` separator used by the key derivations. -/
def wfStr (x : String) : Prop := '-' ∉ x.data

/-- Number of `'-'` separators in a string. -/
def dashCount (x : String) : Nat := x.data.count '-'

instance wfStrDecidable (x : String) : Decidable (wfStr x) := by
  unfold wfStr
  exact (inferInstance : Decidable ('-' ∉ x.data))

/-- Per-event side conditions under which the floor-correctness claim is
re-stated: a listing only for a fresh key with a positive price and
separator-free key parts; an update/cancel/sale only against a stored Active
listing of the event's own contract. -/
def eventOk : Event → Store → Prop
  | .listed e, s =>
      storeGet s.listings (getListingId e.seller e.nftAddress e.tokenId) = none ∧
      0 < e.pricePerItem ∧ wfStr e.seller ∧ wfStr e.nftAddress ∧
      wfStr (toString e.tokenId) ∧ wfStr (toString e.blockTimestamp)
  | .updated e, s =>
      activeFor s.listings (getListingId e.seller e.nftAddress e.tokenId) e.nftAddress ∧
      0 < e.pricePerItem ∧ wfStr (toString e.blockTimestamp)
  | .canceled e, s =>
      activeFor s.listings (getListingId e.seller e.nftAddress e.tokenId) e.nftAddress
  | .sold e, s =>
      activeFor s.listings (getListingId e.seller e.nftAddress e.tokenId) e.nftAddress ∧
      wfStr (toString e.logIndex)

/-- An event sequence whose every event satisfies `eventOk` in the state it is
processed in. -/
def Admissible : Store → List Event → Prop
  | _, [] => True
  | s, e :: es => eventOk e s ∧ Admissible (processEvent e s) es

/-- The listing stored at key `k`, if any, is Active. -/
def activeIfStored (s : Store) (k : String) : Prop :=
  match storeGet s.listings k with
  | some l => l.status = "Active"
  | none => True

/-- Per-event side conditions for the inventory-conservation claim: the three
non-sale handlers, with a listing only on a fresh key and an update/cancel
only when the key is absent or holds an Active listing. -/
def conservesOk : Event → Store → Prop
  | .listed e, s => storeGet s.listings (getListingId e.seller e.nftAddress e.tokenId) = none
  | .updated e, s => activeIfStored s (getListingId e.seller e.nftAddress e.tokenId)
  | .canceled e, s => activeIfStored s (getListingId e.seller e.nftAddress e.tokenId)
  | .sold _, _ => False

/-- A well-formed listing key: derived from a (seller, contract, tokenId)
triple whose string parts are separator-free. -/
def wfKey (k : String) : Prop :=
  ∃ seller nft tid, k = getListingId seller nft tid ∧
    wfStr seller ∧ wfStr nft ∧ wfStr (toString tid)

/-- Well-formedness of a stored Active listing: a separator-free derivable
key, a positive price, and a separator-free block-timestamp string. -/
def wfActiveEntry (kl : String × Listing) : Prop :=
  wfKey kl.1 ∧ 0 < kl.2.pricePerItem ∧ wfStr (toString kl.2.blockTimestamp)

/-- Invariant of a single stored collection against a listings table `L`: its
listing index holds exactly the keys of the stored Active listings that
reference it, without duplicates, and its floor price is the sentinel-min
fold of their prices in index order. -/
structure CollInv (L : List (String × Listing)) (a : String) (c : Collection) : Prop where
  nodup : c.listingIds.Nodup
  entriesActive : ∀ k ∈ c.listingIds, activeFor L k a
  complete : ∀ kl, kl ∈ L → kl.2.status = "Active" → kl.2.collection = a →
    kl.1 ∈ c.listingIds
  floorFold : c.floorPrice = (c.listingIds.map (priceOf L)).foldl sentinelMin 0

/-- Reachable-state invariant for the floor-correctness proof. -/
structure Inv (s : Store) : Prop where
  lkeys : (s.listings.map Prod.fst).Nodup
  ckeys : (s.collections.map Prod.fst).Nodup
  tokensNil : s.tokens = []
  standards : ∀ ac, ac ∈ s.collections → ac.2.standard = ""
  colls : ∀ ac, ac ∈ s.collections → CollInv s.listings ac.1 ac.2
  wfActive : ∀ kl, kl ∈ s.listings → kl.2.status = "Active" → wfActiveEntry kl
  collExists : ∀ kl, kl ∈ s.listings → kl.2.status = "Active" →
    (storeGet s.collections kl.2.collection).isSome

/-! Lemmas about the store primitives. -/

theorem storeGet_append {α : Type} (l₁ l₂ : List (String × α)) (k : String) :
    storeGet (l₁ ++ l₂) k = ((storeGet l₁ k).or (storeGet l₂ k)) := by
  induction l₁ with
  | nil => simp [storeGet]
  | cons p t ih =>
    by_cases h : p.1 = k <;> simp [storeGet, h, ih]

theorem storeGet_replace_self {α : Type} (l : List (String × α)) (k : String) (v : α)
    (h : (storeGet l k).isSome) :
    storeGet (l.map (fun p => if p.1 = k then (k, v) else p)) k = some v := by
  induction l with
  | nil => simp [storeGet] at h
  | cons p t ih =>
    by_cases hp : p.1 = k
    · simp [storeGet, hp]
    · simp only [storeGet, hp, if_false] at h
      simp [storeGet, hp, ih h]

theorem storeGet_replace_ne {α : Type} (l : List (String × α)) (k k' : String) (v : α)
    (h : k' ≠ k) :
    storeGet (l.map (fun p => if p.1 = k then (k, v) else p)) k' = storeGet l k' := by
  induction l with
  | nil => rfl
  | cons p t ih =>
    simp only [List.map_cons]
    by_cases hp : p.1 = k
    · rw [if_pos hp]
      show (if k = k' then some v else _) = _
      rw [if_neg (Ne.symm h)]
      have hpk : p.1 ≠ k' := fun hh => h (hh ▸ hp)
      show _ = (if p.1 = k' then some p.2 else storeGet t k')
      rw [if_neg hpk]
      exact ih
    · rw [if_neg hp]
      show (if p.1 = k' then some p.2 else _) = (if p.1 = k' then some p.2 else _)
      by_cases hp' : p.1 = k'
      · rw [if_pos hp', if_pos hp']
      · rw [if_neg hp', if_neg hp']
        exact ih

theorem storeGet_set_self {α : Type} (l : List (String × α)) (k : String) (v : α) :
    storeGet (storeSet l k v) k = some v := by
  unfold storeSet
  split
  · exact storeGet_replace_self l k v (by assumption)
  · rename_i h
    rw [storeGet_append]
    have : storeGet l k = none := by
      cases hh : storeGet l k with
      | none => rfl
      | some w => rw [hh] at h; simp at h
    simp [this, storeGet]

theorem storeGet_set_ne {α : Type} (l : List (String × α)) (k k' : String) (v : α)
    (h : k' ≠ k) :
    storeGet (storeSet l k v) k' = storeGet l k' := by
  unfold storeSet
  split
  · exact storeGet_replace_ne l k k' v h
  · rw [storeGet_append]
    cases hh : storeGet l k' with
    | some w => simp
    | none => simp [storeGet, Ne.symm h]

theorem storeGet_remove_self {α : Type} (l : List (String × α)) (k : String) :
    storeGet (storeRemove l k) k = none := by
  induction l with
  | nil => rfl
  | cons p t ih =>
    by_cases hp : p.1 = k
    · simpa [storeRemove, List.filter_cons, hp] using ih
    · simpa [storeRemove, List.filter_cons, hp, storeGet] using ih

theorem storeGet_remove_ne {α : Type} (l : List (String × α)) (k k' : String)
    (h : k' ≠ k) :
    storeGet (storeRemove l k) k' = storeGet l k' := by
  induction l with
  | nil => rfl
  | cons p t ih =>
    by_cases hp : p.1 = k
    · have hpk : p.1 ≠ k' := fun hh => h (hh ▸ hp)
      simpa [storeRemove, List.filter_cons, hp, storeGet, hpk, Ne.symm h] using ih
    · by_cases hp' : p.1 = k'
      · simp [storeRemove, List.filter_cons, hp, storeGet, hp', h]
      · simpa [storeRemove, List.filter_cons, hp, storeGet, hp'] using ih

theorem mem_of_storeGet {α : Type} {l : List (String × α)} {k : String} {v : α}
    (h : storeGet l k = some v) : (k, v) ∈ l := by
  induction l with
  | nil => simp [storeGet] at h
  | cons p t ih =>
    by_cases hp : p.1 = k
    · simp only [storeGet, hp, if_true, Option.some.injEq] at h
      exact List.mem_cons.mpr (Or.inl (Prod.ext hp.symm h.symm))
    · simp only [storeGet, hp, if_false] at h
      exact List.mem_cons_of_mem _ (ih h)

theorem storeGet_of_mem {α : Type} {l : List (String × α)} {k : String} {v : α}
    (nd : (l.map Prod.fst).Nodup) (h : (k, v) ∈ l) : storeGet l k = some v := by
  induction l with
  | nil => simp at h
  | cons p t ih =>
    simp only [List.map_cons, List.nodup_cons] at nd
    rcases List.mem_cons.mp h with h1 | h1
    · cases h1
      simp [storeGet]
    · have hk : p.1 ≠ k := by
        intro hh
        exact nd.1 (hh ▸ (List.mem_map.mpr ⟨(k, v), h1, rfl⟩))
      simp [storeGet, hk, ih nd.2 h1]

theorem storeGet_isSome_iff_mem_keys {α : Type} (l : List (String × α)) (k : String) :
    (storeGet l k).isSome ↔ k ∈ l.map Prod.fst := by
  induction l with
  | nil => simp [storeGet]
  | cons p t ih =>
    by_cases hp : p.1 = k
    · simp [storeGet, hp]
    · simp [storeGet, hp, ih, Ne.symm hp]

theorem keys_set {α : Type} (l : List (String × α)) (k : String) (v : α) :
    (storeSet l k v).map Prod.fst =
      if (storeGet l k).isSome then l.map Prod.fst else l.map Prod.fst ++ [k] := by
  unfold storeSet
  split <;> rename_i h
  · rw [List.map_map]
    apply List.map_congr_left
    intro p _
    by_cases hp : p.1 = k <;> simp [hp]
  · simp

theorem keysNodup_set {α : Type} (l : List (String × α)) (k : String) (v : α)
    (nd : (l.map Prod.fst).Nodup) : ((storeSet l k v).map Prod.fst).Nodup := by
  rw [keys_set]
  split <;> rename_i h
  · exact nd
  · have hk : k ∉ l.map Prod.fst := by
      rw [← storeGet_isSome_iff_mem_keys]
      simpa using h
    refine List.Nodup.append nd (List.nodup_singleton k) ?_
    intro a ha hb
    rw [List.mem_singleton] at hb
    exact hk (hb ▸ ha)

theorem keysNodup_remove {α : Type} (l : List (String × α)) (k : String)
    (nd : (l.map Prod.fst).Nodup) : ((storeRemove l k).map Prod.fst).Nodup := by
  exact ((List.filter_sublist l).map Prod.fst).nodup nd

theorem mem_storeSet_elim {α : Type} {l : List (String × α)} {k : String} {v : α} {q : String × α}
    (h : q ∈ storeSet l k v) : q = (k, v) ∨ (q ∈ l ∧ q.1 ≠ k) := by
  unfold storeSet at h
  split at h <;> rename_i hs
  · rcases List.mem_map.mp h with ⟨p, hp, he⟩
    by_cases hpk : p.1 = k
    · simp only [hpk, if_true] at he
      exact Or.inl he.symm
    · simp only [hpk, if_false] at he
      exact Or.inr ⟨he ▸ hp, he ▸ hpk⟩
  · rcases List.mem_append.mp h with h1 | h1
    · right
      refine ⟨h1, ?_⟩
      intro hk
      have : (storeGet l k).isSome :=
        (storeGet_isSome_iff_mem_keys l k).mpr (List.mem_map.mpr ⟨q, h1, hk⟩)
      simp [this] at hs
    · rw [List.mem_singleton] at h1
      exact Or.inl h1

theorem mem_storeSet_of_mem {α : Type} {l : List (String × α)} {k : String} {v : α}
    {q : String × α} (h : q ∈ l) (hne : q.1 ≠ k) : q ∈ storeSet l k v := by
  unfold storeSet
  split
  · exact List.mem_map.mpr ⟨q, h, by simp [hne]⟩
  · exact List.mem_append.mpr (Or.inl h)

theorem self_mem_storeSet {α : Type} (l : List (String × α)) (k : String) (v : α) :
    (k, v) ∈ storeSet l k v :=
  mem_of_storeGet (storeGet_set_self l k v)

theorem mem_storeRemove_iff {α : Type} {l : List (String × α)} {k : String} {q : String × α} :
    q ∈ storeRemove l k ↔ q ∈ l ∧ q.1 ≠ k := by
  simp [storeRemove, List.mem_filter]

/-! Lemmas about the recalculator's scan. -/

theorem removeAt_append_cons {α : Type} (xs : List α) (y : α) (ys : List α) :
    removeAt (xs ++ y :: ys) xs.length = xs ++ ys := by
  unfold removeAt
  have h1 : (xs ++ y :: ys).take xs.length = xs := by
    rw [show xs ++ y :: ys = xs ++ (y :: ys) from rfl]
    exact List.take_left xs (y :: ys)
  have h2 : (xs ++ y :: ys).drop (xs.length + 1) = ys := by
    rw [show xs ++ y :: ys = (xs ++ [y]) ++ ys by simp]
    exact List.drop_left' (by simp)
  rw [h1, h2]

theorem removeAt_of_le {α : Type} (l : List α) (i : Nat) (h : l.length ≤ i) :
    removeAt l i = l := by
  unfold removeAt
  rw [List.take_of_length_le h, List.drop_eq_nil_of_le (by omega), List.append_nil]

theorem scanStep_active (L : List (String × Listing)) (std : String) {lid : String}
    (st : ScanState) (idx : Nat) (h : lookActive L lid) :
    (scanStep L std st idx lid).listingIds = st.listingIds ∧
    (scanStep L std st idx lid).floorPrice = sentinelMin st.floorPrice (priceOf L lid) := by
  unfold lookActive at h
  unfold scanStep
  cases hg : storeGet L lid with
  | none => rw [hg] at h; exact absurd h id
  | some l =>
    rw [hg] at h
    simp only [h, if_true, priceOf, hg, Option.map_some, Option.getD_some]
    constructor
    · split <;> rfl
    · split <;> rfl

theorem scanStep_stale (L : List (String × Listing)) (std : String) {lid : String}
    (st : ScanState) (idx : Nat) (h : ¬ lookActive L lid) :
    (scanStep L std st idx lid).listingIds = removeAt st.listingIds idx ∧
    (scanStep L std st idx lid).floorPrice = st.floorPrice := by
  unfold lookActive at h
  unfold scanStep
  cases hg : storeGet L lid with
  | none => exact ⟨rfl, rfl⟩
  | some l =>
    rw [hg] at h
    replace h : ¬ l.status = "Active" := by simpa using h
    simp [h]

theorem scanLoop_append (L : List (String × Listing)) (std : String)
    (seg₁ seg₂ : List String) (idx : Nat) (st : ScanState) :
    scanLoop L std (seg₁ ++ seg₂) idx st =
      scanLoop L std seg₂ (idx + seg₁.length) (scanLoop L std seg₁ idx st) := by
  induction seg₁ generalizing idx st with
  | nil => simp [scanLoop]
  | cons x xs ih =>
    simp only [List.cons_append, scanLoop, List.length_cons, List.append_eq]
    rw [ih]
    congr 1
    omega

theorem scanLoop_allActive (L : List (String × Listing)) (std : String)
    (seg : List String) (h : ∀ k ∈ seg, lookActive L k) :
    ∀ idx st,
      (scanLoop L std seg idx st).listingIds = st.listingIds ∧
      (scanLoop L std seg idx st).floorPrice =
        (seg.map (priceOf L)).foldl sentinelMin st.floorPrice := by
  induction seg with
  | nil => intro idx st; exact ⟨rfl, rfl⟩
  | cons x xs ih =>
    intro idx st
    have hx := scanStep_active L std st idx (h x (List.mem_cons_self x xs))
    have ihx := ih (fun k hk => h k (List.mem_cons_of_mem x hk)) (idx + 1)
      (scanStep L std st idx x)
    simp only [scanLoop, List.map_cons, List.foldl_cons]
    refine ⟨ihx.1.trans hx.1, ?_⟩
    rw [ihx.2, hx.2]

theorem scanLoop_one_stale (L : List (String × Listing)) (std : String)
    (pre post : List String) (k : String)
    (hpre : ∀ k' ∈ pre, lookActive L k') (hpost : ∀ k' ∈ post, lookActive L k')
    (hk : ¬ lookActive L k) :
    (scanLoop L std (pre ++ k :: post) 0 ⟨0, pre ++ k :: post, []⟩).listingIds = pre ++ post ∧
    (scanLoop L std (pre ++ k :: post) 0 ⟨0, pre ++ k :: post, []⟩).floorPrice =
      ((pre ++ post).map (priceOf L)).foldl sentinelMin 0 := by
  rw [scanLoop_append]
  have h1 := scanLoop_allActive L std pre hpre 0 ⟨0, pre ++ k :: post, []⟩
  set stA := scanLoop L std pre 0 ⟨0, pre ++ k :: post, []⟩ with hstA
  show (scanLoop L std (k :: post) (0 + pre.length) stA).listingIds = _ ∧ _
  simp only [scanLoop]
  have h2 := scanStep_stale L std stA (0 + pre.length) hk
  set stB := scanStep L std stA (0 + pre.length) k with hstB
  have hBids : stB.listingIds = pre ++ post := by
    rw [h2.1, h1.1]
    simpa using removeAt_append_cons pre k post
  have hBfloor : stB.floorPrice = (pre.map (priceOf L)).foldl sentinelMin 0 := by
    rw [h2.2, h1.2]
  have h3 := scanLoop_allActive L std post hpost (0 + pre.length + 1) stB
  refine ⟨h3.1.trans hBids, ?_⟩
  rw [h3.2, hBfloor, List.map_append, List.foldl_append]

/-! Projections of `updateCollectionFloorAndTotal`. -/

theorem floorTotal_listings (a : String) (s : Store) :
    (updateCollectionFloorAndTotal a s).listings = s.listings := by
  unfold updateCollectionFloorAndTotal
  cases storeGet s.collections a <;> rfl

theorem floorTotal_userTokens (a : String) (s : Store) :
    (updateCollectionFloorAndTotal a s).userTokens = s.userTokens := by
  unfold updateCollectionFloorAndTotal
  cases storeGet s.collections a <;> rfl

theorem floorTotal_of_none {a : String} {s : Store}
    (h : storeGet s.collections a = none) :
    updateCollectionFloorAndTotal a s = s := by
  unfold updateCollectionFloorAndTotal
  rw [h]

theorem floorTotal_collections_self {a : String} {s : Store} {c : Collection}
    (h : storeGet s.collections a = some c) :
    storeGet (updateCollectionFloorAndTotal a s).collections a =
      some { c with
        floorPrice := (scanLoop s.listings c.standard c.listingIds 0
          ⟨0, c.listingIds, []⟩).floorPrice
        listingIds := (scanLoop s.listings c.standard c.listingIds 0
          ⟨0, c.listingIds, []⟩).listingIds
        totalListings := (((scanLoop s.listings c.standard c.listingIds 0
          ⟨0, c.listingIds, []⟩).listingIds.length : Int)) } := by
  unfold updateCollectionFloorAndTotal
  rw [h]
  exact storeGet_set_self _ _ _

theorem floorTotal_collections_ne {a a' : String} (s : Store) (hne : a' ≠ a) :
    storeGet (updateCollectionFloorAndTotal a s).collections a' =
      storeGet s.collections a' := by
  unfold updateCollectionFloorAndTotal
  cases h : storeGet s.collections a with
  | none => rfl
  | some c => exact storeGet_set_ne _ _ _ _ hne

theorem tokensFold_nil (M : List (String × Int)) :
    M.foldl (fun ts kv =>
      match storeGet ts kv.1 with
      | some tok => storeSet ts kv.1 { tok with floorPrice := some kv.2 }
      | none => ts) ([] : List (String × Token)) = [] := by
  induction M with
  | nil => rfl
  | cons kv M ih => simpa [storeGet] using ih

theorem floorTotal_tokens_nil {a : String} {s : Store} (h : s.tokens = []) :
    (updateCollectionFloorAndTotal a s).tokens = [] := by
  unfold updateCollectionFloorAndTotal
  cases hg : storeGet s.collections a with
  | none => exact h
  | some c => simpa [h] using tokensFold_nil _

/-! Lemmas about the zero-sentinel minimum. -/

theorem sentinelMin_zero (x : Int) : sentinelMin 0 x = x := by
  simp [sentinelMin]

theorem sentinelMin_eq_min {a x : Int} (ha : 0 < a) : sentinelMin a x = min a x := by
  unfold sentinelMin
  rcases lt_trichotomy x a with h | h | h
  · rw [if_pos (Or.inr h), min_eq_right h.le]
  · subst h
    simp
  · rw [if_neg (by omega), min_eq_left h.le]

theorem sentinelMin_pos {a x : Int} (ha : 0 ≤ a) (hx : 0 < x) : 0 < sentinelMin a x := by
  unfold sentinelMin
  split <;> omega

theorem foldl_sentinelMin_eq_foldl_min {l : List Int} (h : ∀ x ∈ l, 0 < x) :
    ∀ {a : Int}, 0 < a → l.foldl sentinelMin a = l.foldl min a := by
  induction l with
  | nil => intro a _; rfl
  | cons x xs ih =>
    intro a ha
    have hx : 0 < x := h x (List.mem_cons_self x xs)
    simp only [List.foldl_cons]
    rw [sentinelMin_eq_min ha]
    exact ih (fun y hy => h y (List.mem_cons_of_mem x hy)) (by positivity)

theorem foldl_sentinelMin_eq_minOrZero {l : List Int} (h : ∀ x ∈ l, 0 < x) :
    l.foldl sentinelMin 0 = minOrZero l := by
  cases l with
  | nil => rfl
  | cons x xs =>
    simp only [List.foldl_cons, sentinelMin_zero, minOrZero]
    exact foldl_sentinelMin_eq_foldl_min
      (fun y hy => h y (List.mem_cons_of_mem x hy)) (h x (List.mem_cons_self x xs))

theorem foldl_min_perm {l₁ l₂ : List Int} (p : l₁.Perm l₂) (a : Int) :
    l₁.foldl min a = l₂.foldl min a :=
  p.foldl_eq' (fun x _ y _ z => min_right_comm z x y) a

theorem minOrZero_perm {l₁ l₂ : List Int} (p : l₁.Perm l₂) :
    minOrZero l₁ = minOrZero l₂ := by
  induction p with
  | nil => rfl
  | cons x p ih =>
    rename_i t₁ t₂
    simp only [minOrZero]
    exact foldl_min_perm p x
  | swap x y l =>
    simp only [minOrZero, List.foldl_cons]
    rw [min_comm]
  | trans _ _ ih₁ ih₂ => exact ih₁.trans ih₂

/-! String-key separation lemmas. -/

theorem self_ne_append_dash (k x : String) : k ≠ k ++ "-" ++ x := by
  intro h
  have hl := congrArg String.length h
  rw [String.length_append, String.length_append] at hl
  have : ("-" : String).length = 1 := rfl
  omega

theorem append_dash_inj {k x y : String} (h : k ++ "-" ++ x = k ++ "-" ++ y) : x = y := by
  have hd := congrArg String.data h
  simp only [String.data_append] at hd
  rw [List.append_assoc, List.append_assoc] at hd
  have := List.append_cancel_left (List.append_cancel_left hd)
  cases x
  cases y
  exact congrArg String.mk (by simpa using this)

theorem activeIfStored_some {s : Store} {k : String} {l : Listing}
    (h : activeIfStored s k) (hg : storeGet s.listings k = some l) :
    l.status = "Active" := by
  unfold activeIfStored at h
  rw [hg] at h
  exact h

theorem getOrCreateUserToken_quantity (s : Store) (k : String) :
    (getOrCreateUserToken s k).quantity =
      ((storeGet s.userTokens k).map (fun u => u.quantity)).getD 0 := by
  unfold getOrCreateUserToken
  cases storeGet s.userTokens k <;> rfl

/-! Small computation lemmas for symbolic keys. -/

theorem storeGet_cons_self {α : Type} (k : String) (v : α) (t : List (String × α)) :
    storeGet ((k, v) :: t) k = some v := by
  simp [storeGet]

theorem storeGet_cons_ne {α : Type} {k k' : String} (v : α) (t : List (String × α))
    (h : k ≠ k') : storeGet ((k, v) :: t) k' = storeGet t k' := by
  simp [storeGet, h]

theorem storeSet_of_none {α : Type} {l : List (String × α)} {k : String}
    (h : storeGet l k = none) (v : α) : storeSet l k v = l ++ [(k, v)] := by
  unfold storeSet
  rw [h]
  rfl

theorem storeRemove_nil {α : Type} (k : String) : storeRemove ([] : List (String × α)) k = [] :=
  rfl

theorem storeRemove_cons_self {α : Type} (k : String) (v : α) (t : List (String × α)) :
    storeRemove ((k, v) :: t) k = storeRemove t k := by
  simp [storeRemove, List.filter_cons]

/-! Projections of the handlers, used to trace single events symbolically. -/

theorem listed_listings (e : ItemListedEvent) (s : Store) :
    (handleItemListed e s).listings =
      storeSet s.listings (getListingId e.seller e.nftAddress e.tokenId)
        { getOrCreateListing s (getListingId e.seller e.nftAddress e.tokenId) with
          blockTimestamp := e.blockTimestamp
          collection := (getOrCreateToken s (getTokenId e.nftAddress e.tokenId) e.nftAddress).collection
          collectionName := (getOrCreateCollection s
            (getOrCreateToken s (getTokenId e.nftAddress e.tokenId) e.nftAddress).collection).name
          expires := e.expirationTime
          pricePerItem := e.pricePerItem
          quantity := e.quantity
          status := "Active"
          token := getTokenId e.nftAddress e.tokenId
          tokenName := (getOrCreateToken s (getTokenId e.nftAddress e.tokenId) e.nftAddress).name
          user := e.seller } := rfl

theorem listed_collections (e : ItemListedEvent) (s : Store) :
    (handleItemListed e s).collections =
      storeSet s.collections
        (getOrCreateToken s (getTokenId e.nftAddress e.tokenId) e.nftAddress).collection
        { getOrCreateCollection s
            (getOrCreateToken s (getTokenId e.nftAddress e.tokenId) e.nftAddress).collection with
          floorPrice := sentinelMin (getOrCreateCollection s
            (getOrCreateToken s (getTokenId e.nftAddress e.tokenId) e.nftAddress).collection).floorPrice
            e.pricePerItem
          listingIds := (getOrCreateCollection s
            (getOrCreateToken s (getTokenId e.nftAddress e.tokenId) e.nftAddress).collection).listingIds ++
            [getListingId e.seller e.nftAddress e.tokenId]
          totalListings := (getOrCreateCollection s
            (getOrCreateToken s (getTokenId e.nftAddress e.tokenId) e.nftAddress).collection).totalListings + 1 } := rfl

theorem listed_userTokens (e : ItemListedEvent) (s : Store) :
    (handleItemListed e s).userTokens =
      (if (getOrCreateUserToken s (getListingId e.seller e.nftAddress e.tokenId)).quantity = e.quantity
       then storeRemove s.userTokens (getListingId e.seller e.nftAddress e.tokenId)
       else storeSet s.userTokens (getListingId e.seller e.nftAddress e.tokenId)
         { getOrCreateUserToken s (getListingId e.seller e.nftAddress e.tokenId) with
           quantity := (getOrCreateUserToken s (getListingId e.seller e.nftAddress e.tokenId)).quantity
             - e.quantity }) := rfl

theorem listed_tokens (e : ItemListedEvent) (s : Store) :
    (handleItemListed e s).tokens =
      (if (getOrCreateCollection s
            (getOrCreateToken s (getTokenId e.nftAddress e.tokenId) e.nftAddress).collection).standard = "ERC1155" ∧
          tokenFloorBeats (getOrCreateToken s (getTokenId e.nftAddress e.tokenId) e.nftAddress).floorPrice
            e.pricePerItem = true
       then storeSet s.tokens (getTokenId e.nftAddress e.tokenId)
         { getOrCreateToken s (getTokenId e.nftAddress e.tokenId) e.nftAddress with
           floorPrice := some e.pricePerItem }
       else s.tokens) := rfl

theorem canceled_eq (e : ItemCanceledEvent) (s : Store) :
    handleItemCanceled e s =
      updateCollectionFloorAndTotal e.nftAddress
        { s with
          listings := storeRemove s.listings (getListingId e.seller e.nftAddress e.tokenId)
          userTokens := storeSet s.userTokens (getListingId e.seller e.nftAddress e.tokenId)
            { quantity := (getOrCreateUserToken s (getListingId e.seller e.nftAddress e.tokenId)).quantity
                + (getOrCreateListing s (getListingId e.seller e.nftAddress e.tokenId)).quantity
              token := (getOrCreateListing s (getListingId e.seller e.nftAddress e.tokenId)).token
              user := (getOrCreateListing s (getListingId e.seller e.nftAddress e.tokenId)).user } } := rfl

theorem updated_none {e : ItemUpdatedEvent} {s : Store}
    (hg : storeGet s.listings (getListingId e.seller e.nftAddress e.tokenId) = none) :
    handleItemUpdated e s = s := by
  unfold handleItemUpdated
  rw [hg]

theorem updated_some {e : ItemUpdatedEvent} {s : Store} {l : Listing}
    (hg : storeGet s.listings (getListingId e.seller e.nftAddress e.tokenId) = some l) :
    handleItemUpdated e s =
      updateCollectionFloorAndTotal e.nftAddress
        { s with
          userTokens :=
            (if l.quantity = e.quantity then s.userTokens
             else
              if (getOrCreateUserToken s (getListingId e.seller e.nftAddress e.tokenId)).quantity
                  + (l.quantity - e.quantity) = 0
              then storeRemove s.userTokens (getListingId e.seller e.nftAddress e.tokenId)
              else storeSet s.userTokens (getListingId e.seller e.nftAddress e.tokenId)
                { quantity := (getOrCreateUserToken s (getListingId e.seller e.nftAddress e.tokenId)).quantity
                    + (l.quantity - e.quantity)
                  token := l.token
                  user := l.user })
          listings := storeSet s.listings (getListingId e.seller e.nftAddress e.tokenId)
            (let src :=
              if l.pricePerItem = e.pricePerItem then l
              else { l with blockTimestamp := e.blockTimestamp };
            { src with
              quantity := e.quantity
              pricePerItem := e.pricePerItem
              expires := e.expirationTime }) } := by
  unfold handleItemUpdated
  rw [hg]

theorem sold_eq (e : ItemSoldEvent) (s : Store) :
    handleItemSold e s =
      (let listingId := getListingId e.seller e.nftAddress e.tokenId
       let listing := getOrCreateListing s listingId
       let L1 :=
         (if listing.quantity = e.quantity then storeRemove s.listings listingId
          else storeSet s.listings listingId { listing with quantity := listing.quantity - e.quantity })
       let staleKey := listingId ++ "-" ++ toString e.logIndex
       let L2 := (if (storeGet L1 staleKey).isSome then storeRemove L1 staleKey else L1)
       let soldKey := listingId ++ "-" ++ toString listing.blockTimestamp
       let sold := (storeGet L2 soldKey).getD defaultListing
       updateCollectionFloorAndTotal e.nftAddress
        { s with listings :=
          (storeSet L2 soldKey
          { sold with
            blockTimestamp := e.blockTimestamp
            buyer := e.buyer
            collection := listing.collection
            collectionName := listing.collectionName
            expires := 0
            pricePerItem := listing.pricePerItem
            nicePrice := formatPrice listing.pricePerItem
            quantity := sold.quantity + e.quantity
            status := "Sold"
            token := listing.token
            tokenName := listing.tokenName
            totalPrice := formatPrice (listing.pricePerItem * (sold.quantity + e.quantity))
            transactionLink := "https://" ++ EXPLORER ++ "/tx/" ++ e.txHash
            user := e.seller }) }) := rfl

/-! Dash-count separation of derived keys: a well-formed listing key holds
exactly two separators, while sold-record and stale-cleanup keys hold three,
so the two families never collide. -/

theorem dashCount_append (a b : String) : dashCount (a ++ b) = dashCount a + dashCount b := by
  simp [dashCount, String.data_append, List.count_append]

theorem dashCount_of_wf {x : String} (h : wfStr x) : dashCount x = 0 :=
  List.count_eq_zero.mpr h

theorem dashCount_getListingId {seller nft : String} {tid : Int}
    (hs : wfStr seller) (hn : wfStr nft) (ht : wfStr (toString tid)) :
    dashCount (getListingId seller nft tid) = 2 := by
  simp [getListingId, dashCount_append, dashCount_of_wf hs, dashCount_of_wf hn,
    dashCount_of_wf ht, show dashCount "-" = 1 from rfl]

theorem wfKey_dashCount {k : String} (h : wfKey k) : dashCount k = 2 := by
  obtain ⟨se, nf, ti, rfl, hs, hn, ht⟩ := h
  exact dashCount_getListingId hs hn ht

theorem wfKey_ne_suffixed {k k' x : String} (hk : wfKey k) (hk' : wfKey k') (hx : wfStr x) :
    k ≠ k' ++ "-" ++ x := by
  intro he
  have h1 := wfKey_dashCount hk
  rw [he, dashCount_append, dashCount_append, wfKey_dashCount hk', dashCount_of_wf hx,
    show dashCount "-" = 1 from rfl] at h1
  omega

theorem activeFor_def {L : List (String × Listing)} {k a : String} :
    activeFor L k a ↔
      ∃ l, storeGet L k = some l ∧ l.status = "Active" ∧ l.collection = a := by
  unfold activeFor
  cases h : storeGet L k <;> simp

theorem lookActive_of_activeFor {L : List (String × Listing)} {k a : String}
    (h : activeFor L k a) : lookActive L k := by
  unfold activeFor at h
  unfold lookActive
  cases hg : storeGet L k with
  | none => rw [hg] at h; exact h
  | some l => rw [hg] at h; exact h.1

/-! Preservation of a collection invariant under store edits that do not
touch that collection's Active listings. -/

theorem collInv_remove {L : List (String × Listing)} {K a : String} {c : Collection}
    (h : CollInv L a c)
    (hK : ∀ l, storeGet L K = some l → l.status = "Active" → l.collection ≠ a) :
    CollInv (storeRemove L K) a c := by
  obtain ⟨hnd, hact, hcomp, hfold⟩ := h
  have hne : ∀ k ∈ c.listingIds, k ≠ K := by
    intro k hk he
    obtain ⟨l, hg, hst, hcol⟩ := activeFor_def.mp (hact k hk)
    exact hK l (he ▸ hg) hst hcol
  refine ⟨hnd, ?_, ?_, ?_⟩
  · intro k hk
    have hthis := hact k hk
    rw [activeFor_def] at hthis ⊢
    obtain ⟨l, hg, hrest⟩ := hthis
    exact ⟨l, by rw [storeGet_remove_ne _ _ _ (hne k hk)]; exact hg, hrest⟩
  · intro kl hmem hst hcol
    exact hcomp kl (mem_storeRemove_iff.mp hmem).1 hst hcol
  · rw [hfold]
    congr 1
    apply List.map_congr_left
    intro k hk
    unfold priceOf
    rw [storeGet_remove_ne _ _ _ (hne k hk)]

theorem collInv_set {L : List (String × Listing)} {K : String} {v : Listing}
    {a : String} {c : Collection} (h : CollInv L a c)
    (hold : ∀ l, storeGet L K = some l → l.status = "Active" → l.collection ≠ a)
    (hnew : v.status = "Active" → v.collection ≠ a) :
    CollInv (storeSet L K v) a c := by
  obtain ⟨hnd, hact, hcomp, hfold⟩ := h
  have hne : ∀ k ∈ c.listingIds, k ≠ K := by
    intro k hk he
    obtain ⟨l, hg, hst, hcol⟩ := activeFor_def.mp (hact k hk)
    exact hold l (he ▸ hg) hst hcol
  refine ⟨hnd, ?_, ?_, ?_⟩
  · intro k hk
    have hthis := hact k hk
    rw [activeFor_def] at hthis ⊢
    obtain ⟨l, hg, hrest⟩ := hthis
    exact ⟨l, by rw [storeGet_set_ne _ _ _ _ (hne k hk)]; exact hg, hrest⟩
  · intro kl hmem hst hcol
    rcases mem_storeSet_elim hmem with he | ⟨hm, hkne⟩
    · exact absurd hcol (by rw [he]; exact hnew (by rw [he] at hst; exact hst))
    · exact hcomp kl hm hst hcol
  · rw [hfold]
    congr 1
    apply List.map_congr_left
    intro k hk
    unfold priceOf
    rw [storeGet_set_ne _ _ _ _ (hne k hk)]

theorem floorTotal_collections_eq {a : String} {s : Store} {c : Collection}
    (hc : storeGet s.collections a = some c) :
    (updateCollectionFloorAndTotal a s).collections = storeSet s.collections a
      { c with
        floorPrice := (scanLoop s.listings c.standard c.listingIds 0
          ⟨0, c.listingIds, []⟩).floorPrice
        listingIds := (scanLoop s.listings c.standard c.listingIds 0
          ⟨0, c.listingIds, []⟩).listingIds
        totalListings := (((scanLoop s.listings c.standard c.listingIds 0
          ⟨0, c.listingIds, []⟩).listingIds.length : Int)) } := by
  unfold updateCollectionFloorAndTotal
  rw [hc]

/-- Re-establishing the full invariant after `updateCollectionFloorAndTotal`,
given the scan's outcome `ids'` on the target collection. -/
theorem inv_recompute {s₁ : Store} {a : String} {c : Collection} {ids' : List String}
    (hc : storeGet s₁.collections a = some c)
    (l1 : (s₁.listings.map Prod.fst).Nodup)
    (c1 : (s₁.collections.map Prod.fst).Nodup)
    (t1 : s₁.tokens = [])
    (st1 : ∀ ac, ac ∈ s₁.collections → ac.2.standard = "")
    (wf1 : ∀ kl, kl ∈ s₁.listings → kl.2.status = "Active" → wfActiveEntry kl)
    (ce1 : ∀ kl, kl ∈ s₁.listings → kl.2.status = "Active" →
      (storeGet s₁.collections kl.2.collection).isSome)
    (hothers : ∀ ac, ac ∈ s₁.collections → ac.1 ≠ a → CollInv s₁.listings ac.1 ac.2)
    (hscan_ids : (scanLoop s₁.listings c.standard c.listingIds 0
      ⟨0, c.listingIds, []⟩).listingIds = ids')
    (hscan_floor : (scanLoop s₁.listings c.standard c.listingIds 0
      ⟨0, c.listingIds, []⟩).floorPrice = (ids'.map (priceOf s₁.listings)).foldl sentinelMin 0)
    (hnodup2 : ids'.Nodup)
    (hact2 : ∀ k ∈ ids', activeFor s₁.listings k a)
    (hcomp2 : ∀ kl, kl ∈ s₁.listings → kl.2.status = "Active" → kl.2.collection = a →
      kl.1 ∈ ids') :
    Inv (updateCollectionFloorAndTotal a s₁) := by
  have hfc := floorTotal_collections_eq hc
  rw [hscan_ids, hscan_floor] at hfc
  constructor
  · rw [floorTotal_listings]
    exact l1
  · rw [hfc]
    exact keysNodup_set _ _ _ c1
  · exact floorTotal_tokens_nil t1
  · intro ac hmem
    rw [hfc] at hmem
    rcases mem_storeSet_elim hmem with he | ⟨hm, hne⟩
    · rw [he]
      exact st1 (a, c) (mem_of_storeGet hc)
    · exact st1 ac hm
  · intro ac hmem
    rw [floorTotal_listings, hfc] at *
    rcases mem_storeSet_elim hmem with he | ⟨hm, hne⟩
    · rw [he]
      exact ⟨hnodup2, hact2, hcomp2, rfl⟩
    · exact hothers ac hm hne
  · intro kl hm
    rw [floorTotal_listings] at hm
    exact wf1 kl hm
  · intro kl hm hst
    rw [floorTotal_listings] at hm
    rw [hfc]
    by_cases hca : kl.2.collection = a
    · rw [hca, storeGet_set_self]
      rfl
    · rw [storeGet_set_ne _ _ _ _ hca]
      exact ce1 kl hm hst

theorem getOrCreateCollection_standard {s : Store} {x : String}
    (st1 : ∀ ac, ac ∈ s.collections → ac.2.standard = "") :
    (getOrCreateCollection s x).standard = "" := by
  unfold getOrCreateCollection
  cases hg : storeGet s.collections x with
  | none => rfl
  | some cc => exact st1 (x, cc) (mem_of_storeGet hg)

theorem collInv_insert {L : List (String × Listing)} {K a : String} {v : Listing}
    {c c2 : Collection}
    (hfresh : storeGet L K = none)
    (f1 : c.listingIds.Nodup)
    (f2 : ∀ k ∈ c.listingIds, activeFor L k a)
    (f3 : ∀ kl, kl ∈ L → kl.2.status = "Active" → kl.2.collection = a → kl.1 ∈ c.listingIds)
    (f4 : c.floorPrice = (c.listingIds.map (priceOf L)).foldl sentinelMin 0)
    (hv : v.status = "Active") (hvc : v.collection = a)
    (hids : c2.listingIds = c.listingIds ++ [K])
    (hfloor : c2.floorPrice = sentinelMin c.floorPrice v.pricePerItem) :
    CollInv (storeSet L K v) a c2 := by
  have hK0 : K ∉ c.listingIds := by
    intro hk
    obtain ⟨l, hg, _, _⟩ := activeFor_def.mp (f2 _ hk)
    rw [hfresh] at hg
    cases hg
  have hidne : ∀ k ∈ c.listingIds, k ≠ K := fun k hk he => hK0 (he ▸ hk)
  refine ⟨?_, ?_, ?_, ?_⟩
  · rw [hids]
    refine List.Nodup.append f1 (List.nodup_singleton _) ?_
    intro x hx hx2
    rw [List.mem_singleton] at hx2
    exact hK0 (hx2 ▸ hx)
  · intro k hk
    rw [hids] at hk
    rcases List.mem_append.mp hk with hk1 | hk1
    · rw [activeFor_def]
      obtain ⟨l, hg, hrest⟩ := activeFor_def.mp (f2 k hk1)
      exact ⟨l, by rw [storeGet_set_ne _ _ _ _ (hidne k hk1)]; exact hg, hrest⟩
    · rw [List.mem_singleton] at hk1
      subst hk1
      rw [activeFor_def]
      exact ⟨v, storeGet_set_self _ _ _, hv, hvc⟩
  · intro kl hm2 hst hcol
    rw [hids]
    rcases mem_storeSet_elim hm2 with he2 | ⟨hm3, hne3⟩
    · rw [he2]
      exact List.mem_append.mpr (Or.inr (List.mem_singleton.mpr rfl))
    · exact List.mem_append.mpr (Or.inl (f3 kl hm3 hst hcol))
  · rw [hfloor, hids, List.map_append, List.foldl_append]
    have hmap : c.listingIds.map (priceOf (storeSet L K v)) =
        c.listingIds.map (priceOf L) := by
      apply List.map_congr_left
      intro k hk
      unfold priceOf
      rw [storeGet_set_ne _ _ _ _ (hidne k hk)]
    rw [hmap, ← f4]
    simp only [List.map_cons, List.map_nil, List.foldl_cons, List.foldl_nil]
    congr 1
    unfold priceOf
    rw [storeGet_set_self]
    rfl

theorem inv_listed {s : Store} (hInv : Inv s) {e : ItemListedEvent}
    (hok : eventOk (.listed e) s) : Inv (handleItemListed e s) := by
  obtain ⟨hfresh, hp, hws, hwn, hwt, hwb⟩ := hok
  have htok : getOrCreateToken s (getTokenId e.nftAddress e.tokenId) e.nftAddress =
      ⟨e.nftAddress, "", none⟩ := by
    unfold getOrCreateToken
    rw [hInv.tokensNil]
    rfl
  have hwkey : wfKey (getListingId e.seller e.nftAddress e.tokenId) :=
    ⟨_, _, _, rfl, hws, hwn, hwt⟩
  have hL : (handleItemListed e s).listings =
      storeSet s.listings (getListingId e.seller e.nftAddress e.tokenId)
      { getOrCreateListing s (getListingId e.seller e.nftAddress e.tokenId) with
        blockTimestamp := e.blockTimestamp
        collection := e.nftAddress
        collectionName := (getOrCreateCollection s e.nftAddress).name
        expires := e.expirationTime
        pricePerItem := e.pricePerItem
        quantity := e.quantity
        status := "Active"
        token := getTokenId e.nftAddress e.tokenId
        tokenName := ""
        user := e.seller } := by
    rw [listed_listings]
    simp only [htok]
  have hC : (handleItemListed e s).collections = storeSet s.collections e.nftAddress
      { getOrCreateCollection s e.nftAddress with
        floorPrice := sentinelMin (getOrCreateCollection s e.nftAddress).floorPrice e.pricePerItem
        listingIds := (getOrCreateCollection s e.nftAddress).listingIds ++
          [getListingId e.seller e.nftAddress e.tokenId]
        totalListings := (getOrCreateCollection s e.nftAddress).totalListings + 1 } := by
    rw [listed_collections]
    simp only [htok]
  have hT : (handleItemListed e s).tokens = [] := by
    rw [listed_tokens]
    rw [if_neg ?hcnd]
    · exact hInv.tokensNil
    case hcnd =>
      rintro ⟨h1, _⟩
      rw [getOrCreateCollection_standard hInv.standards] at h1
      exact absurd h1 (by decide)
  -- facts about the target collection's current state
  have f1 : (getOrCreateCollection s e.nftAddress).listingIds.Nodup := by
    unfold getOrCreateCollection
    cases hg : storeGet s.collections e.nftAddress with
    | none => exact List.nodup_nil
    | some cc => exact (hInv.colls (e.nftAddress, cc) (mem_of_storeGet hg)).nodup
  have f2 : ∀ k ∈ (getOrCreateCollection s e.nftAddress).listingIds,
      activeFor s.listings k e.nftAddress := by
    unfold getOrCreateCollection
    cases hg : storeGet s.collections e.nftAddress with
    | none => intro k hk; exact absurd hk (by simp [defaultCollection])
    | some cc => exact (hInv.colls (e.nftAddress, cc) (mem_of_storeGet hg)).entriesActive
  have f3 : ∀ kl, kl ∈ s.listings → kl.2.status = "Active" →
      kl.2.collection = e.nftAddress →
      kl.1 ∈ (getOrCreateCollection s e.nftAddress).listingIds := by
    unfold getOrCreateCollection
    cases hg : storeGet s.collections e.nftAddress with
    | none =>
      intro kl hm hst hcol
      have := hInv.collExists kl hm hst
      rw [hcol, hg] at this
      exact absurd this (by simp)
    | some cc => exact (hInv.colls (e.nftAddress, cc) (mem_of_storeGet hg)).complete
  have f4 : (getOrCreateCollection s e.nftAddress).floorPrice =
      ((getOrCreateCollection s e.nftAddress).listingIds.map
        (priceOf s.listings)).foldl sentinelMin 0 := by
    unfold getOrCreateCollection
    cases hg : storeGet s.collections e.nftAddress with
    | none => rfl
    | some cc => exact (hInv.colls (e.nftAddress, cc) (mem_of_storeGet hg)).floorFold
  have hK0 : getListingId e.seller e.nftAddress e.tokenId ∉
      (getOrCreateCollection s e.nftAddress).listingIds := by
    intro hk
    obtain ⟨l, hg, _, _⟩ := activeFor_def.mp (f2 _ hk)
    rw [hfresh] at hg
    cases hg
  have hidne : ∀ k ∈ (getOrCreateCollection s e.nftAddress).listingIds,
      k ≠ getListingId e.seller e.nftAddress e.tokenId := by
    intro k hk he
    exact hK0 (he ▸ hk)
  constructor
  · rw [hL]
    exact keysNodup_set _ _ _ hInv.lkeys
  · rw [hC]
    exact keysNodup_set _ _ _ hInv.ckeys
  · exact hT
  · intro ac hmem
    rw [hC] at hmem
    rcases mem_storeSet_elim hmem with he | ⟨hm, hne⟩
    · rw [he]
      exact getOrCreateCollection_standard hInv.standards
    · exact hInv.standards ac hm
  · intro ac hmem
    rw [hC] at hmem
    rw [hL]
    rcases mem_storeSet_elim hmem with he | ⟨hm, hne⟩
    · rw [he]
      exact collInv_insert hfresh f1 f2 f3 f4 rfl rfl rfl rfl
    · refine collInv_set (hInv.colls ac hm) ?_ ?_
      · intro l hg
        rw [hfresh] at hg
        cases hg
      · intro _
        exact Ne.symm hne
  · intro kl hm hst
    rw [hL] at hm
    rcases mem_storeSet_elim hm with he | ⟨hm2, hne2⟩
    · rw [he]
      exact ⟨hwkey, hp, hwb⟩
    · exact hInv.wfActive kl hm2 hst
  · intro kl hm hst
    rw [hL] at hm
    rw [hC]
    rcases mem_storeSet_elim hm with he | ⟨hm2, hne2⟩
    · rw [he]
      show (storeGet (storeSet s.collections e.nftAddress _) e.nftAddress).isSome
      rw [storeGet_set_self]
      rfl
    · by_cases hca : kl.2.collection = e.nftAddress
      · rw [hca, storeGet_set_self]
        rfl
      · rw [storeGet_set_ne _ _ _ _ hca]
        exact hInv.collExists kl hm2 hst

/-! Claim theorems. -/

/-- C5: price formatting.  The code agrees with the spec on `0`, `10^18` and
`1.5 * 10^18`, but `formatPrice 5` returns `".5"` — not the claimed
`"0.000000000000000005"` — because `slice(0, -18)` on a short string yields an
empty whole part, and `split("0").join("")` deletes *all* zero digits, so both
the claimed short-input behavior and the claimed trailing-zero stripping fail
(e.g. `1.05 * 10^18` prints as `"1.5"`). -/
theorem C5_formatPrice_divergence :
    formatPrice 0 = "0" ∧
    formatPrice 1000000000000000000 = "1" ∧
    formatPrice 1500000000000000000 = "1.5" ∧
    formatPrice 5 = ".5" ∧
    formatPrice 5 ≠ "0.000000000000000005" ∧
    formatPrice 1050000000000000000 = "1.5" := by
  refine ⟨by decide, by decide, by decide, by decide, by decide, by decide⟩

/-- C9: replay determinism.  Every handler of the embedding is a pure function
of the event payload and the current store — the source handlers read only
`event.params`, `event.block`, `event.logIndex`, `event.transaction` and the
store — so processing the same sequence from the empty store twice yields
identical final states. -/
theorem C9_deterministic_replay (es : List Event) (s₁ s₂ : Store)
    (h₁ : s₁ = emptyStore) (h₂ : s₂ = emptyStore) :
    processEvents es s₁ = processEvents es s₂ := by
  subst h₁
  subst h₂
  rfl

/-- C9 witness: a concrete replay of a list/sell/list sequence. -/
theorem C9_deterministic_replay_witness :
    processEvents [Event.listed ⟨"s", "c", 1, 3, 5, 0, 100⟩,
      Event.sold ⟨"s", "b", "c", 1, 3, 200, 0, "h"⟩] emptyStore =
    processEvents [Event.listed ⟨"s", "c", 1, 3, 5, 0, 100⟩,
      Event.sold ⟨"s", "b", "c", 1, 3, 200, 0, "h"⟩] emptyStore :=
  C9_deterministic_replay _ emptyStore emptyStore rfl rfl

/-- C1 counterexample: list (S, C, token 1) at price 5, then list the same key
again at price 10.  The second `handleItemListed` overwrites the stored
listing (price 10) but only lowers the collection floor, so `floorPrice`
stays 5 while the minimum over stored Active listings is 10. -/
theorem C1_floor_counterexample :
    (storeGet (processEvents
        [Event.listed ⟨"s", "c", 1, 1, 5, 0, 100⟩, Event.listed ⟨"s", "c", 1, 1, 10, 0, 101⟩]
        emptyStore).collections "c").map Collection.floorPrice = some 5 ∧
    activeFloor (processEvents
        [Event.listed ⟨"s", "c", 1, 1, 5, 0, 100⟩, Event.listed ⟨"s", "c", 1, 1, 10, 0, 101⟩]
        emptyStore) "c" = 10 := by
  refine ⟨by decide, by decide⟩

/-- C2 counterexample: listing the same key twice puts a duplicate entry in
`listingIds`; canceling then removes the stored listing and triggers the
recompute, whose prune — `slice` against the already-pruned array at the
snapshot index — drops only one of the two stale entries.  After
`updateCollectionFloorAndTotal` returns (it is the final step of
`handleItemCanceled`), the index still contains `"s-c-1"` although no listing
is stored under that key. -/
theorem C2_prune_counterexample :
    (storeGet (processEvents
        [Event.listed ⟨"s", "c", 1, 1, 5, 0, 100⟩, Event.listed ⟨"s", "c", 1, 1, 5, 0, 101⟩,
         Event.canceled ⟨"s", "c", 1⟩]
        emptyStore).collections "c").map Collection.listingIds = some ["s-c-1"] ∧
    storeGet (processEvents
        [Event.listed ⟨"s", "c", 1, 1, 5, 0, 100⟩, Event.listed ⟨"s", "c", 1, 1, 5, 0, 101⟩,
         Event.canceled ⟨"s", "c", 1⟩]
        emptyStore).listings "s-c-1" = none := by
  refine ⟨by decide, by decide⟩

/-- C3 counterexample: after four listings of one key and a cancel, the
reached state's index still holds two stale copies of the key.  One further
recompute prunes one copy (index `["s-c-1"]`), a second recompute prunes the
other (index `[]`): running the recalculator twice changes `listingIds`
relative to running it once. -/
theorem C3_idempotence_counterexample :
    (storeGet (updateCollectionFloorAndTotal "c" (processEvents
        [Event.listed ⟨"s", "c", 1, 1, 5, 0, 1⟩, Event.listed ⟨"s", "c", 1, 1, 5, 0, 2⟩,
         Event.listed ⟨"s", "c", 1, 1, 5, 0, 3⟩, Event.listed ⟨"s", "c", 1, 1, 5, 0, 4⟩,
         Event.canceled ⟨"s", "c", 1⟩] emptyStore)).collections "c").map
      Collection.listingIds = some ["s-c-1"] ∧
    (storeGet (updateCollectionFloorAndTotal "c" (updateCollectionFloorAndTotal "c"
      (processEvents
        [Event.listed ⟨"s", "c", 1, 1, 5, 0, 1⟩, Event.listed ⟨"s", "c", 1, 1, 5, 0, 2⟩,
         Event.listed ⟨"s", "c", 1, 1, 5, 0, 3⟩, Event.listed ⟨"s", "c", 1, 1, 5, 0, 4⟩,
         Event.canceled ⟨"s", "c", 1⟩] emptyStore))).collections "c").map
      Collection.listingIds = some [] := by
  refine ⟨by decide, by decide⟩

/-- C4 counterexample: a first-ever `handleItemListed` subtracts the listed
quantity from the default zero UserToken and saves quantity `-1`; and
`handleItemCanceled` then adds the canceled quantity back and saves the
resulting *zero* unconditionally, so a zero-quantity UserToken is persisted
rather than deleted. -/
theorem C4_negative_quantity_counterexample :
    (storeGet (processEvents [Event.listed ⟨"s", "c", 1, 1, 5, 0, 100⟩]
        emptyStore).userTokens "s-c-1").map UserToken.quantity = some (-1) ∧
    (storeGet (processEvents [Event.listed ⟨"s", "c", 1, 1, 5, 0, 100⟩,
        Event.canceled ⟨"s", "c", 1⟩]
        emptyStore).userTokens "s-c-1").map UserToken.quantity = some 0 := by
  refine ⟨by decide, by decide⟩

/-- C6 counterexample: an `ItemSold` event processed on the empty store — no
listing exists under the derived key — still mutates the store: the handler
materializes a default listing via `getOrCreateListing`, saves it back with
quantity `-2`, and creates a Sold record under the `-0`-suffixed key. -/
theorem C6_no_mutation_counterexample :
    (storeGet (handleItemSold ⟨"s", "b", "c", 1, 2, 100, 0, "h"⟩
        emptyStore).listings "s-c-1").map Listing.quantity = some (-2) ∧
    (storeGet (handleItemSold ⟨"s", "b", "c", 1, 2, 100, 0, "h"⟩
        emptyStore).listings "s-c-1-0").map Listing.status = some "Sold" := by
  refine ⟨by decide, by decide⟩

/-- C8 counterexample: re-listing an already-listed key is a
`handleItemListed` invocation that changes the seller's inventory
`UserToken.quantity + active listing quantity` from 0 to -3, because the
overwritten listing's old quantity 3 is dropped while the UserToken is
debited again. -/
theorem C8_relist_counterexample :
    inventoryAt (processEvents [Event.listed ⟨"s", "c", 1, 3, 5, 0, 100⟩]
      emptyStore) "s" "c" 1 = 0 ∧
    inventoryAt (processEvents [Event.listed ⟨"s", "c", 1, 3, 5, 0, 100⟩,
      Event.listed ⟨"s", "c", 1, 2, 5, 0, 101⟩] emptyStore) "s" "c" 1 = -3 := by
  refine ⟨by decide, by decide⟩

/-- C10 counterexample: list at block timestamp 7, then two partial sales.
When the second sale's `logIndex` is 3 the Sold record accumulates quantity
2 + 1 = 3, but when its `logIndex` happens to equal the listing's stored
`blockTimestamp` 7, the handler's stale-record cleanup at
`<key>-<logIndex>` deletes the accumulated Sold record first, so the record
ends with quantity 1 instead of the claimed accumulated 3. -/
theorem C10_logindex_collision_counterexample :
    (storeGet (processEvents [Event.listed ⟨"s", "c", 1, 5, 10, 0, 7⟩,
        Event.sold ⟨"s", "b", "c", 1, 2, 100, 0, "h"⟩,
        Event.sold ⟨"s", "b", "c", 1, 1, 200, 3, "h"⟩]
        emptyStore).listings "s-c-1-7").map Listing.quantity = some 3 ∧
    (storeGet (processEvents [Event.listed ⟨"s", "c", 1, 5, 10, 0, 7⟩,
        Event.sold ⟨"s", "b", "c", 1, 2, 100, 0, "h"⟩,
        Event.sold ⟨"s", "b", "c", 1, 1, 200, 7, "h"⟩]
        emptyStore).listings "s-c-1-7").map Listing.quantity = some 1 := by
  refine ⟨by decide, by decide⟩

/-- C6 amended: the `!listing` null guard in `handleItemSold` is unreachable —
`getOrCreateListing` always materializes a default — so a sale whose derived
key has no stored listing does *not* return without mutation: it saves a
listing with quantity `0 - quantity` under the derived key and a Sold record
under the `-0`-suffixed key (the default listing's block timestamp). -/
theorem C6_phantom_sale_mutates (e : ItemSoldEvent) (hq : ¬ e.quantity = 0) :
    storeGet (handleItemSold e emptyStore).listings
      (getListingId e.seller e.nftAddress e.tokenId) =
      some { defaultListing with quantity := 0 - e.quantity } ∧
    (∃ r, storeGet (handleItemSold e emptyStore).listings
        (getListingId e.seller e.nftAddress e.tokenId ++ "-" ++ toString (0 : Int)) = some r ∧
      r.status = "Sold" ∧ r.quantity = 0 + e.quantity) := by
  have hq0 : ¬ (0 : Int) = e.quantity := fun h => hq h.symm
  have hKst : ¬ (getListingId e.seller e.nftAddress e.tokenId =
      getListingId e.seller e.nftAddress e.tokenId ++ "-" ++ toString e.logIndex) :=
    self_ne_append_dash _ _
  have hKso : ¬ (getListingId e.seller e.nftAddress e.tokenId =
      getListingId e.seller e.nftAddress e.tokenId ++ "-" ++ toString (0 : Int)) :=
    self_ne_append_dash _ _
  rw [sold_eq]
  simp only [floorTotal_listings]
  simp [hq0, hKst, hKso, emptyStore, getOrCreateListing, defaultListing, storeGet, storeSet]

/-- C6 witness: a concrete phantom sale. -/
theorem C6_phantom_sale_mutates_witness :
    storeGet (handleItemSold ⟨"s", "b", "c", 1, 2, 100, 0, "h"⟩ emptyStore).listings
      (getListingId "s" "c" 1) = some { defaultListing with quantity := 0 - 2 } ∧
    (∃ r, storeGet (handleItemSold ⟨"s", "b", "c", 1, 2, 100, 0, "h"⟩ emptyStore).listings
        (getListingId "s" "c" 1 ++ "-" ++ toString (0 : Int)) = some r ∧
      r.status = "Sold" ∧ r.quantity = 0 + 2) :=
  C6_phantom_sale_mutates ⟨"s", "b", "c", 1, 2, 100, 0, "h"⟩ (by decide)

/-- C7: listing a token, selling it in full, then listing the same
(seller, contract, tokenId) again: the sold record lives only under the
timestamp-suffixed key `<key>-<t1>` (with `t1` the original listing's stored
block timestamp), the new Active listing is stored under the original key,
and neither overwrites the other — the sold record keeps quantity `q`, price
`p` and total price `formatPrice (p * q)` while the new listing carries the
new price, quantity, and timestamp. -/
theorem C7_relist_after_sale_no_collision (seller nft buyer txh : String)
    (tid p q exp t1 bt2 li2 p2 q2 exp2 t3 : Int) :
    ∃ lnew srec,
      storeGet (processEvents
        [Event.listed ⟨seller, nft, tid, q, p, exp, t1⟩,
         Event.sold ⟨seller, buyer, nft, tid, q, bt2, li2, txh⟩,
         Event.listed ⟨seller, nft, tid, q2, p2, exp2, t3⟩] emptyStore).listings
        (getListingId seller nft tid) = some lnew ∧
      lnew.status = "Active" ∧ lnew.pricePerItem = p2 ∧ lnew.quantity = q2 ∧
      lnew.blockTimestamp = t3 ∧
      storeGet (processEvents
        [Event.listed ⟨seller, nft, tid, q, p, exp, t1⟩,
         Event.sold ⟨seller, buyer, nft, tid, q, bt2, li2, txh⟩,
         Event.listed ⟨seller, nft, tid, q2, p2, exp2, t3⟩] emptyStore).listings
        (getListingId seller nft tid ++ "-" ++ toString t1) = some srec ∧
      srec.status = "Sold" ∧ srec.pricePerItem = p ∧ srec.quantity = q ∧
      srec.totalPrice = formatPrice (p * q) := by
  have hst : getListingId seller nft tid ≠
      getListingId seller nft tid ++ "-" ++ toString li2 := self_ne_append_dash _ _
  have hso : getListingId seller nft tid ≠
      getListingId seller nft tid ++ "-" ++ toString t1 := self_ne_append_dash _ _
  have h2L : (handleItemSold ⟨seller, buyer, nft, tid, q, bt2, li2, txh⟩
      (handleItemListed ⟨seller, nft, tid, q, p, exp, t1⟩ emptyStore)).listings =
      [(getListingId seller nft tid ++ "-" ++ toString t1,
        ⟨bt2, nft, "", 0, p, q, "Sold", getTokenId nft tid, "", seller, buyer,
         formatPrice p, formatPrice (p * q), "https://" ++ EXPLORER ++ "/tx/" ++ txh⟩)] := by
    rw [sold_eq]
    simp only [floorTotal_listings]
    simp [handleItemListed, getOrCreateListing, getOrCreateToken, getOrCreateCollection,
      getOrCreateUserToken, storeGet, storeRemove_cons_self, storeRemove_nil, storeSet,
      hst, hso, defaultListing, defaultCollection, emptyStore]
  simp only [processEvents, List.foldl_cons, List.foldl_nil, processEvent]
  refine ⟨?lnew, ?srec, ?ha, ?hb, ?hc, ?hd, ?he, ?hf, ?hg, ?hh, ?hi, ?hj⟩
  case ha => rw [listed_listings]; exact storeGet_set_self _ _ _
  case hf =>
    rw [listed_listings, storeGet_set_ne _ _ _ _ (Ne.symm hso), h2L]
    exact storeGet_cons_self _ _ _
  case hb => rfl
  case hc => rfl
  case hd => rfl
  case he => rfl
  case hg => rfl
  case hh => rfl
  case hi => rfl
  case hj => rfl

/-- C10 amended: two successive partial sales of one listing, in different
blocks and with no price change, accumulate into the single Sold record keyed
by `<key>-<t1>` where `t1` is the listing's *stored* block timestamp (not the
sale events' timestamps `bt2`, `bt3`), and that record's `totalPrice` is
`formatPrice (pricePerItem * (q1 + q2))` — provided no sale event's
`logIndex` collides with the stored timestamp string (the handler deletes
`<key>-<logIndex>` first; see the counterexample). -/
theorem C10_sold_accumulation (seller nft buyer buyer2 txh txh2 : String)
    (tid p q exp t1 q1 bt2 li2 q2 bt3 li3 : Int)
    (hq1 : ¬ (q = q1)) (hq2 : ¬ (q - q1 = q2)) (hli3 : toString li3 ≠ toString t1) :
    ∃ l2 srec,
      storeGet (processEvents
        [Event.listed ⟨seller, nft, tid, q, p, exp, t1⟩,
         Event.sold ⟨seller, buyer, nft, tid, q1, bt2, li2, txh⟩,
         Event.sold ⟨seller, buyer2, nft, tid, q2, bt3, li3, txh2⟩] emptyStore).listings
        (getListingId seller nft tid) = some l2 ∧
      l2.status = "Active" ∧ l2.quantity = q - q1 - q2 ∧ l2.blockTimestamp = t1 ∧
      storeGet (processEvents
        [Event.listed ⟨seller, nft, tid, q, p, exp, t1⟩,
         Event.sold ⟨seller, buyer, nft, tid, q1, bt2, li2, txh⟩,
         Event.sold ⟨seller, buyer2, nft, tid, q2, bt3, li3, txh2⟩] emptyStore).listings
        (getListingId seller nft tid ++ "-" ++ toString t1) = some srec ∧
      srec.status = "Sold" ∧ srec.quantity = q1 + q2 ∧ srec.pricePerItem = p ∧
      srec.totalPrice = formatPrice (p * (q1 + q2)) := by
  have hst : getListingId seller nft tid ≠
      getListingId seller nft tid ++ "-" ++ toString li2 := self_ne_append_dash _ _
  have hst3 : getListingId seller nft tid ≠
      getListingId seller nft tid ++ "-" ++ toString li3 := self_ne_append_dash _ _
  have hso : getListingId seller nft tid ≠
      getListingId seller nft tid ++ "-" ++ toString t1 := self_ne_append_dash _ _
  have hcol : getListingId seller nft tid ++ "-" ++ toString li3 ≠
      getListingId seller nft tid ++ "-" ++ toString t1 :=
    fun h => hli3 (append_dash_inj h)
  have h2L : (handleItemSold ⟨seller, buyer, nft, tid, q1, bt2, li2, txh⟩
      (handleItemListed ⟨seller, nft, tid, q, p, exp, t1⟩ emptyStore)).listings =
      [(getListingId seller nft tid,
        ⟨t1, nft, "", exp, p, q - q1, "Active", getTokenId nft tid, "", seller, "", "", "", ""⟩),
       (getListingId seller nft tid ++ "-" ++ toString t1,
        ⟨bt2, nft, "", 0, p, q1, "Sold", getTokenId nft tid, "", seller, buyer,
         formatPrice p, formatPrice (p * q1), "https://" ++ EXPLORER ++ "/tx/" ++ txh⟩)] := by
    rw [sold_eq]
    simp only [floorTotal_listings]
    simp [handleItemListed, getOrCreateListing, getOrCreateToken, getOrCreateCollection,
      getOrCreateUserToken, storeGet, storeRemove_cons_self, storeRemove_nil, storeSet,
      hst, hso, hq1, defaultListing, defaultCollection, emptyStore]
  have hgK : storeGet (handleItemSold ⟨seller, buyer, nft, tid, q1, bt2, li2, txh⟩
      (handleItemListed ⟨seller, nft, tid, q, p, exp, t1⟩ emptyStore)).listings
      (getListingId seller nft tid) =
      some ⟨t1, nft, "", exp, p, q - q1, "Active", getTokenId nft tid, "", seller,
        "", "", "", ""⟩ := by
    rw [h2L]
    exact storeGet_cons_self _ _ _
  simp only [processEvents, List.foldl_cons, List.foldl_nil, processEvent]
  rw [sold_eq]
  simp only [floorTotal_listings]
  simp only [getOrCreateListing, hgK, Option.getD_some]
  simp only [h2L]
  simp [storeGet, storeSet, hq2, hst3, hso, hcol, Ne.symm hso, Ne.symm hcol]

/-- C10 witness: list quantity 5 at timestamp 7, sell 2 then 1 in later
blocks with non-colliding log indices. -/
theorem C10_sold_accumulation_witness :
    ∃ l2 srec,
      storeGet (processEvents
        [Event.listed ⟨"s", "c", 1, 5, 10, 0, 7⟩,
         Event.sold ⟨"s", "b", "c", 1, 2, 100, 0, "h"⟩,
         Event.sold ⟨"s", "b2", "c", 1, 1, 200, 3, "h2"⟩] emptyStore).listings
        (getListingId "s" "c" 1) = some l2 ∧
      l2.status = "Active" ∧ l2.quantity = 5 - 2 - 1 ∧ l2.blockTimestamp = 7 ∧
      storeGet (processEvents
        [Event.listed ⟨"s", "c", 1, 5, 10, 0, 7⟩,
         Event.sold ⟨"s", "b", "c", 1, 2, 100, 0, "h"⟩,
         Event.sold ⟨"s", "b2", "c", 1, 1, 200, 3, "h2"⟩] emptyStore).listings
        (getListingId "s" "c" 1 ++ "-" ++ toString (7 : Int)) = some srec ∧
      srec.status = "Sold" ∧ srec.quantity = 2 + 1 ∧ srec.pricePerItem = 10 ∧
      srec.totalPrice = formatPrice (10 * (2 + 1)) :=
  C10_sold_accumulation "s" "c" "b" "b2" "h" "h2" 1 10 5 0 7 2 100 0 1 200 3
    (by decide) (by decide) (by decide)

/-- C8 amended: for every fixed (seller, contract, tokenId), the inventory
`UserToken.quantity + Active-listing quantity` at the derived key is left
unchanged by every `handleItemUpdated` and `handleItemCanceled` invocation
whose target key is absent or holds an Active listing, and by every
`handleItemListed` invocation on a key with no stored listing; re-listing an
already-listed key breaks conservation (see the counterexample). -/
theorem C8_conservation_nonsale (e : Event) (s : Store) (h : conservesOk e s)
    (sellerQ nftQ : String) (tidQ : Int) :
    inventoryAt (processEvent e s) sellerQ nftQ tidQ = inventoryAt s sellerQ nftQ tidQ := by
  cases e with
  | sold e => unfold conservesOk at h; exact h.elim
  | listed e =>
    unfold conservesOk at h
    show inventoryAt (handleItemListed e s) sellerQ nftQ tidQ = _
    unfold inventoryAt
    rw [listed_userTokens, listed_listings]
    by_cases hk : getListingId sellerQ nftQ tidQ = getListingId e.seller e.nftAddress e.tokenId
    · rw [hk, storeGet_set_self, h]
      rw [getOrCreateUserToken_quantity] at *
      by_cases hu : ((storeGet s.userTokens (getListingId e.seller e.nftAddress e.tokenId)).map
          (fun u => u.quantity)).getD 0 = e.quantity
      · rw [if_pos hu, storeGet_remove_self]
        simp [hu.symm]
      · rw [if_neg hu, storeGet_set_self]
        simp
    · rw [storeGet_set_ne _ _ _ _ hk]
      by_cases hu : (getOrCreateUserToken s
          (getListingId e.seller e.nftAddress e.tokenId)).quantity = e.quantity
      · rw [if_pos hu, storeGet_remove_ne _ _ _ hk]
      · rw [if_neg hu, storeGet_set_ne _ _ _ _ hk]
  | canceled e =>
    unfold conservesOk at h
    show inventoryAt (handleItemCanceled e s) sellerQ nftQ tidQ = _
    rw [canceled_eq]
    unfold inventoryAt
    rw [floorTotal_userTokens, floorTotal_listings]
    by_cases hk : getListingId sellerQ nftQ tidQ = getListingId e.seller e.nftAddress e.tokenId
    · rw [hk]
      show ((storeGet (storeSet s.userTokens _ _) _).map _).getD 0 + _ = _
      rw [storeGet_set_self, storeGet_remove_self]
      cases hg : storeGet s.listings (getListingId e.seller e.nftAddress e.tokenId) with
      | none =>
        simp [getOrCreateListing, hg, defaultListing, getOrCreateUserToken_quantity]
      | some l =>
        have hact := activeIfStored_some h hg
        simp [getOrCreateListing, hg, hact, getOrCreateUserToken_quantity]
    · show ((storeGet (storeSet s.userTokens _ _) _).map _).getD 0 + _ = _
      rw [storeGet_set_ne _ _ _ _ hk, storeGet_remove_ne _ _ _ hk]
  | updated e =>
    cases hg : storeGet s.listings (getListingId e.seller e.nftAddress e.tokenId) with
    | none =>
      show inventoryAt (handleItemUpdated e s) sellerQ nftQ tidQ = _
      rw [updated_none hg]
    | some l =>
      unfold conservesOk at h
      have hact := activeIfStored_some h hg
      show inventoryAt (handleItemUpdated e s) sellerQ nftQ tidQ = _
      rw [updated_some hg]
      unfold inventoryAt
      rw [floorTotal_userTokens, floorTotal_listings]
      by_cases hk : getListingId sellerQ nftQ tidQ = getListingId e.seller e.nftAddress e.tokenId
      · rw [hk]
        show ((storeGet _ _).map _).getD 0 + _ = _
        rw [storeGet_set_self, hg]
        simp only [apply_ite Listing.status, apply_ite Listing.quantity]
        by_cases hq : l.quantity = e.quantity
        · rw [if_pos hq]
          simp [hact, hq]
        · rw [if_neg hq]
          by_cases hz : (getOrCreateUserToken s
              (getListingId e.seller e.nftAddress e.tokenId)).quantity
              + (l.quantity - e.quantity) = 0
          · rw [if_pos hz, storeGet_remove_self]
            rw [getOrCreateUserToken_quantity] at hz
            simp [hact]
            omega
          · rw [if_neg hz, storeGet_set_self]
            rw [getOrCreateUserToken_quantity] at hz
            simp [hact, getOrCreateUserToken_quantity]
            omega
      · show ((storeGet _ _).map _).getD 0 + _ = _
        by_cases hq : l.quantity = e.quantity
        · rw [if_pos hq, storeGet_set_ne _ _ _ _ hk]
        · rw [if_neg hq]
          by_cases hz : (getOrCreateUserToken s
              (getListingId e.seller e.nftAddress e.tokenId)).quantity
              + (l.quantity - e.quantity) = 0
          · rw [if_pos hz, storeGet_remove_ne _ _ _ hk, storeGet_set_ne _ _ _ _ hk]
          · rw [if_neg hz, storeGet_set_ne _ _ _ _ hk, storeGet_set_ne _ _ _ _ hk]

/-- C8 witness: a first listing on the empty store conserves the (empty)
inventory at its own key. -/
theorem C8_conservation_nonsale_witness :
    inventoryAt (processEvent (Event.listed ⟨"s", "c", 1, 3, 5, 0, 100⟩) emptyStore) "s" "c" 1 =
      inventoryAt emptyStore "s" "c" 1 :=
  C8_conservation_nonsale (Event.listed ⟨"s", "c", 1, 3, 5, 0, 100⟩) emptyStore rfl "s" "c" 1

/-- C2 amended: after `updateCollectionFloorAndTotal` returns on an existing
collection, `totalListings` always equals the length of the (possibly
imperfectly pruned) `listingIds`; the per-entry Active guarantee does not
hold in general (see the counterexample). -/
theorem C2_totalListings_after_recompute (s : Store) (a : String) (c : Collection)
    (h : storeGet s.collections a = some c) :
    ∃ c', storeGet (updateCollectionFloorAndTotal a s).collections a = some c' ∧
      c'.totalListings = (c'.listingIds.length : Int) :=
  ⟨_, floorTotal_collections_self h, rfl⟩

/-- C2 witness: the recompute on a one-collection store. -/
theorem C2_totalListings_after_recompute_witness :
    ∃ c', storeGet (updateCollectionFloorAndTotal "c"
        ⟨[], [("c", defaultCollection)], [], []⟩).collections "c" = some c' ∧
      c'.totalListings = (c'.listingIds.length : Int) :=
  C2_totalListings_after_recompute ⟨[], [("c", defaultCollection)], [], []⟩ "c"
    defaultCollection (by decide)

/-- C3 amended: the recompute is idempotent on `floorPrice` and `listingIds`
provided every entry of the collection's listing index refers to a stored
Active listing (in states with stale index entries a second run can prune
further, see the counterexample). -/
theorem C3_recompute_idempotent_on_active (s : Store) (a : String) (c : Collection)
    (hc : storeGet s.collections a = some c)
    (hall : ∀ k ∈ c.listingIds, lookActive s.listings k) :
    ∃ c₁ c₂,
      storeGet (updateCollectionFloorAndTotal a s).collections a = some c₁ ∧
      storeGet (updateCollectionFloorAndTotal a
        (updateCollectionFloorAndTotal a s)).collections a = some c₂ ∧
      c₂.floorPrice = c₁.floorPrice ∧ c₂.listingIds = c₁.listingIds := by
  have h1 := floorTotal_collections_self hc
  have hids₁ : (scanLoop s.listings c.standard c.listingIds 0
      ⟨0, c.listingIds, []⟩).listingIds = c.listingIds :=
    (scanLoop_allActive s.listings c.standard c.listingIds hall 0 _).1
  have h2 := floorTotal_collections_self h1
  rw [floorTotal_listings] at h2
  simp only [hids₁] at h2
  exact ⟨_, _, h1, h2, rfl, by simp [hids₁]⟩

/-- C3 witness: recomputing twice on a store holding one Active listing. -/
theorem C3_recompute_idempotent_on_active_witness :
    ∃ c₁ c₂,
      storeGet (updateCollectionFloorAndTotal "c"
        (processEvents [Event.listed ⟨"s", "c", 1, 1, 5, 0, 100⟩]
          emptyStore)).collections "c" = some c₁ ∧
      storeGet (updateCollectionFloorAndTotal "c" (updateCollectionFloorAndTotal "c"
        (processEvents [Event.listed ⟨"s", "c", 1, 1, 5, 0, 100⟩]
          emptyStore))).collections "c" = some c₂ ∧
      c₂.floorPrice = c₁.floorPrice ∧ c₂.listingIds = c₁.listingIds :=
  C3_recompute_idempotent_on_active
    (processEvents [Event.listed ⟨"s", "c", 1, 1, 5, 0, 100⟩] emptyStore) "c"
    ⟨"", "", 5, 1, ["s-c-1"]⟩ (by decide)
    (by
      intro k hk
      rw [List.mem_singleton] at hk
      subst hk
      decide)

/-- C4 amended: the zero-reached-means-deleted behavior does hold for
`handleItemListed` (a UserToken whose quantity equals the listed quantity is
removed) and for `handleItemUpdated` (an adjusted quantity of exactly zero is
removed), but quantities are not kept non-negative in general, and
`handleItemCanceled` persists a zero instead of deleting (see the
counterexample). -/
theorem C4_zero_quantity_deleted (s t : Store) (eL : ItemListedEvent) (eU : ItemUpdatedEvent)
    (hL : (getOrCreateUserToken s (getListingId eL.seller eL.nftAddress eL.tokenId)).quantity
      = eL.quantity)
    (hU : ∃ l, storeGet t.listings (getListingId eU.seller eU.nftAddress eU.tokenId) = some l ∧
      ¬ l.quantity = eU.quantity ∧
      (getOrCreateUserToken t (getListingId eU.seller eU.nftAddress eU.tokenId)).quantity
        + (l.quantity - eU.quantity) = 0) :
    storeGet (handleItemListed eL s).userTokens
      (getListingId eL.seller eL.nftAddress eL.tokenId) = none ∧
    storeGet (handleItemUpdated eU t).userTokens
      (getListingId eU.seller eU.nftAddress eU.tokenId) = none := by
  constructor
  · rw [listed_userTokens, if_pos hL]
    exact storeGet_remove_self _ _
  · obtain ⟨l, hg, hq, hz⟩ := hU
    rw [updated_some hg, floorTotal_userTokens]
    simp only [hq, if_false, hz, if_true]
    exact storeGet_remove_self _ _

/-- C4 witness: a listing at exactly the held quantity and an update whose
delta returns the UserToken to zero both delete the record. -/
theorem C4_zero_quantity_deleted_witness :
    storeGet (handleItemListed ⟨"s", "c", 1, 0, 5, 0, 100⟩ emptyStore).userTokens "s-c-1" = none ∧
    storeGet (handleItemUpdated ⟨"s", "c", 1, 2, 5, 0, 100⟩
      ⟨[("s-c-1", { defaultListing with quantity := 3, status := "Active", pricePerItem := 5 })],
       [], [], [("s-c-1", { quantity := -1, token := "", user := "" })]⟩).userTokens
      "s-c-1" = none :=
  C4_zero_quantity_deleted emptyStore
    ⟨[("s-c-1", { defaultListing with quantity := 3, status := "Active", pricePerItem := 5 })],
     [], [], [("s-c-1", { quantity := -1, token := "", user := "" })]⟩
    ⟨"s", "c", 1, 0, 5, 0, 100⟩ ⟨"s", "c", 1, 2, 5, 0, 100⟩ (by decide)
    ⟨{ defaultListing with quantity := 3, status := "Active", pricePerItem := 5 },
      by decide, by decide, by decide⟩

theorem inv_canceled {s : Store} (hInv : Inv s) {e : ItemCanceledEvent}
    (hok : eventOk (.canceled e) s) : Inv (handleItemCanceled e s) := by
  obtain ⟨l₀, hg, hst, hcol⟩ := activeFor_def.mp hok
  have hsome : (storeGet s.collections e.nftAddress).isSome := by
    have h := hInv.collExists (getListingId e.seller e.nftAddress e.tokenId, l₀)
      (mem_of_storeGet hg) hst
    rw [show (getListingId e.seller e.nftAddress e.tokenId, l₀).2.collection
      = e.nftAddress from hcol] at h
    exact h
  obtain ⟨c, hc⟩ := Option.isSome_iff_exists.mp hsome
  have hci := hInv.colls (e.nftAddress, c) (mem_of_storeGet hc)
  have hKmem : getListingId e.seller e.nftAddress e.tokenId ∈ c.listingIds :=
    hci.complete (getListingId e.seller e.nftAddress e.tokenId, l₀)
      (mem_of_storeGet hg) hst hcol
  obtain ⟨pre, post, hids⟩ := List.append_of_mem hKmem
  have hnd := hci.nodup
  rw [hids, List.nodup_middle, List.nodup_cons] at hnd
  obtain ⟨hKnotin, hnodup2⟩ := hnd
  have hmemids : ∀ k ∈ pre ++ post,
      k ∈ c.listingIds ∧ k ≠ getListingId e.seller e.nftAddress e.tokenId := by
    intro k hk
    refine ⟨?_, ?_⟩
    · rw [hids]
      rcases List.mem_append.mp hk with h1 | h1
      · exact List.mem_append.mpr (Or.inl h1)
      · exact List.mem_append.mpr (Or.inr (List.mem_cons_of_mem _ h1))
    · intro he
      exact hKnotin (he ▸ hk)
  have hact2 : ∀ k ∈ pre ++ post,
      activeFor (storeRemove s.listings (getListingId e.seller e.nftAddress e.tokenId))
        k e.nftAddress := by
    intro k hk
    obtain ⟨hkm, hkne⟩ := hmemids k hk
    obtain ⟨l', hg', hrest⟩ := activeFor_def.mp (hci.entriesActive k hkm)
    exact activeFor_def.mpr ⟨l', by rw [storeGet_remove_ne _ _ _ hkne]; exact hg', hrest⟩
  have hstale : ¬ lookActive
      (storeRemove s.listings (getListingId e.seller e.nftAddress e.tokenId))
      (getListingId e.seller e.nftAddress e.tokenId) := by
    intro h
    unfold lookActive at h
    rw [storeGet_remove_self] at h
    exact h
  have hscan := scanLoop_one_stale
    (storeRemove s.listings (getListingId e.seller e.nftAddress e.tokenId))
    c.standard pre post (getListingId e.seller e.nftAddress e.tokenId)
    (fun k' hk' => lookActive_of_activeFor (hact2 k' (List.mem_append.mpr (Or.inl hk'))))
    (fun k' hk' => lookActive_of_activeFor (hact2 k' (List.mem_append.mpr (Or.inr hk'))))
    hstale
  rw [canceled_eq]
  refine inv_recompute hc ?_ hInv.ckeys hInv.tokensNil hInv.standards ?_ ?_ ?_ ?_ ?_
    hnodup2 hact2 ?_
  · exact keysNodup_remove _ _ hInv.lkeys
  · intro kl hm hst2
    exact hInv.wfActive kl (mem_storeRemove_iff.mp hm).1 hst2
  · intro kl hm hst2
    exact hInv.collExists kl (mem_storeRemove_iff.mp hm).1 hst2
  · intro ac hm hne
    refine collInv_remove (hInv.colls ac hm) ?_
    intro l' hg' _
    rw [hg] at hg'
    have he := Option.some.inj hg'
    rw [← he, hcol]
    exact fun h2 => hne h2.symm
  · rw [hids]
    exact hscan.1
  · rw [hids]
    exact hscan.2
  · intro kl hm hst2 hcol2
    obtain ⟨hm0, hne0⟩ := mem_storeRemove_iff.mp hm
    have hkm := hci.complete kl hm0 hst2 hcol2
    rw [hids] at hkm
    rcases List.mem_append.mp hkm with h1 | h1
    · exact List.mem_append.mpr (Or.inl h1)
    · rcases List.mem_cons.mp h1 with h2 | h2
      · exact absurd h2 hne0
      · exact List.mem_append.mpr (Or.inr h2)

theorem inv_update_core (U : List (String × UserToken)) {s : Store} (hInv : Inv s)
    {K a : String} {l v : Listing}
    (hg : storeGet s.listings K = some l) (hst : l.status = "Active")
    (hcol : l.collection = a)
    (hv : v.status = "Active") (hvc : v.collection = a)
    (hvp : 0 < v.pricePerItem) (hvb : wfStr (toString v.blockTimestamp)) :
    Inv (updateCollectionFloorAndTotal a
      { s with listings := storeSet s.listings K v, userTokens := U }) := by
  have hwk : wfKey K := (hInv.wfActive (K, l) (mem_of_storeGet hg) hst).1
  have hsome : (storeGet s.collections a).isSome := by
    have h := hInv.collExists (K, l) (mem_of_storeGet hg) hst
    rw [show (K, l).2.collection = a from hcol] at h
    exact h
  obtain ⟨c, hc⟩ := Option.isSome_iff_exists.mp hsome
  have hci := hInv.colls (a, c) (mem_of_storeGet hc)
  have hallact : ∀ k ∈ c.listingIds, activeFor (storeSet s.listings K v) k a := by
    intro k hk
    by_cases hkK : k = K
    · subst hkK
      exact activeFor_def.mpr ⟨v, storeGet_set_self _ _ _, hv, hvc⟩
    · obtain ⟨l2, hg2, hrest⟩ := activeFor_def.mp (hci.entriesActive k hk)
      exact activeFor_def.mpr ⟨l2, by rw [storeGet_set_ne _ _ _ _ hkK]; exact hg2, hrest⟩
  have hscan := scanLoop_allActive (storeSet s.listings K v) c.standard c.listingIds
    (fun k hk => lookActive_of_activeFor (hallact k hk)) 0 ⟨0, c.listingIds, []⟩
  refine inv_recompute hc ?_ hInv.ckeys hInv.tokensNil hInv.standards ?_ ?_ ?_
    hscan.1 hscan.2 hci.nodup hallact ?_
  · exact keysNodup_set _ _ _ hInv.lkeys
  · intro kl hm hst2
    rcases mem_storeSet_elim hm with he | ⟨hm0, _⟩
    · rw [he]
      exact ⟨hwk, hvp, hvb⟩
    · exact hInv.wfActive kl hm0 hst2
  · intro kl hm hst2
    rcases mem_storeSet_elim hm with he | ⟨hm0, _⟩
    · rw [he]
      show (storeGet s.collections v.collection).isSome
      rw [hvc, hc]
      rfl
    · exact hInv.collExists kl hm0 hst2
  · intro ac hm hne
    refine collInv_set (hInv.colls ac hm) ?_ ?_
    · intro l2 hg2 _
      rw [hg] at hg2
      have he := Option.some.inj hg2
      rw [← he, hcol]
      exact fun h2 => hne h2.symm
    · intro _
      rw [hvc]
      exact fun h2 => hne h2.symm
  · intro kl hm hst2 hcol2
    rcases mem_storeSet_elim hm with he | ⟨hm0, _⟩
    · rw [he]
      exact hci.complete (K, l) (mem_of_storeGet hg) hst hcol
    · exact hci.complete kl hm0 hst2 hcol2

theorem inv_updated {s : Store} (hInv : Inv s) {e : ItemUpdatedEvent}
    (hok : eventOk (.updated e) s) : Inv (handleItemUpdated e s) := by
  obtain ⟨hact, hp, hwb⟩ := hok
  obtain ⟨l, hg, hst, hcol⟩ := activeFor_def.mp hact
  rw [updated_some hg]
  refine inv_update_core _ hInv hg hst hcol ?_ ?_ ?_ ?_
  · by_cases hpe : l.pricePerItem = e.pricePerItem <;> simp [hpe, hst]
  · by_cases hpe : l.pricePerItem = e.pricePerItem <;> simp [hpe, hcol]
  · exact hp
  · by_cases hpe : l.pricePerItem = e.pricePerItem
    · simp only [if_pos hpe]
      exact (hInv.wfActive (getListingId e.seller e.nftAddress e.tokenId, l)
        (mem_of_storeGet hg) hst).2.2
    · simp only [if_neg hpe]
      exact hwb

theorem collInv_of_agree {L L2 : List (String × Listing)} {a : String} {c : Collection}
    (h : CollInv L a c)
    (hagree : ∀ k ∈ c.listingIds, storeGet L2 k = storeGet L k)
    (hback : ∀ kl, kl ∈ L2 → kl.2.status = "Active" → kl.2.collection = a →
      kl.1 ∈ c.listingIds) :
    CollInv L2 a c := by
  obtain ⟨hnd, hact, hcomp, hfold⟩ := h
  refine ⟨hnd, ?_, hback, ?_⟩
  · intro k hk
    obtain ⟨l2, hg2, hrest⟩ := activeFor_def.mp (hact k hk)
    exact activeFor_def.mpr ⟨l2, (hagree k hk).trans hg2, hrest⟩
  · rw [hfold]
    congr 1
    apply List.map_congr_left
    intro k hk
    unfold priceOf
    rw [hagree k hk]

theorem storeGet_ite_remove {α : Type} {b : Prop} [Decidable b]
    {L : List (String × α)} {sk k : String} (hne : k ≠ sk) :
    storeGet (if b then storeRemove L sk else L) k = storeGet L k := by
  split
  · exact storeGet_remove_ne _ _ _ hne
  · rfl

theorem mem_ite_remove {α : Type} {b : Prop} [Decidable b]
    {L : List (String × α)} {sk : String} {q : String × α}
    (h : q ∈ (if b then storeRemove L sk else L)) : q ∈ L := by
  split at h
  · exact (mem_storeRemove_iff.mp h).1
  · exact h

theorem inv_sold_core (b : Prop) [Decidable b] {s : Store} (hInv : Inv s)
    {K a sk dk : String} {l : Listing}
    (hg : storeGet s.listings K = some l) (hst : l.status = "Active")
    (hcol : l.collection = a)
    (hsk : ∀ k2, wfKey k2 → k2 ≠ sk) (hdk : ∀ k2, wfKey k2 → k2 ≠ dk)
    (L1 : List (String × Listing)) (rec : Listing)
    (hrec : ¬ rec.status = "Active")
    (hL1 : L1 = storeRemove s.listings K ∨
      ∃ v, L1 = storeSet s.listings K v ∧ v.status = "Active" ∧ v.collection = a ∧
        0 < v.pricePerItem ∧ wfStr (toString v.blockTimestamp)) :
    Inv (updateCollectionFloorAndTotal a
      { s with listings := storeSet (if b then storeRemove L1 sk else L1) dk rec }) := by
  have hwf := hInv.wfActive (K, l) (mem_of_storeGet hg) hst
  have hwk : wfKey K := hwf.1
  have hKsk : K ≠ sk := hsk K hwk
  have hKdk : K ≠ dk := hdk K hwk
  have hsome : (storeGet s.collections a).isSome := by
    have h := hInv.collExists (K, l) (mem_of_storeGet hg) hst
    rw [show (K, l).2.collection = a from hcol] at h
    exact h
  obtain ⟨c, hc⟩ := Option.isSome_iff_exists.mp hsome
  have hci := hInv.colls (a, c) (mem_of_storeGet hc)
  have hKmem : K ∈ c.listingIds :=
    hci.complete (K, l) (mem_of_storeGet hg) hst hcol
  have hGet : ∀ k2, wfKey k2 → k2 ≠ K →
      storeGet (storeSet (if b then storeRemove L1 sk else L1) dk rec) k2 =
        storeGet s.listings k2 := by
    intro k2 hk2 hkK
    rw [storeGet_set_ne _ _ _ _ (hdk k2 hk2), storeGet_ite_remove (hsk k2 hk2)]
    rcases hL1 with h1 | ⟨v, h1, _⟩
    · rw [h1, storeGet_remove_ne _ _ _ hkK]
    · rw [h1, storeGet_set_ne _ _ _ _ hkK]
  have hGetK : storeGet (storeSet (if b then storeRemove L1 sk else L1) dk rec) K =
      storeGet L1 K := by
    rw [storeGet_set_ne _ _ _ _ hKdk]
    exact storeGet_ite_remove hKsk
  have hMem : ∀ kl, kl ∈ storeSet (if b then storeRemove L1 sk else L1) dk rec →
      kl.2.status = "Active" →
      ((kl ∈ s.listings ∧ kl.1 ≠ K) ∨
       ∃ v, L1 = storeSet s.listings K v ∧ kl = (K, v) ∧ v.status = "Active" ∧
         v.collection = a ∧ 0 < v.pricePerItem ∧ wfStr (toString v.blockTimestamp)) := by
    intro kl hm hst2
    rcases mem_storeSet_elim hm with he | ⟨hm2, _⟩
    · rw [he] at hst2
      exact absurd hst2 hrec
    · have hm3 := mem_ite_remove hm2
      rcases hL1 with h1 | ⟨v, h1, hv1, hv2, hv3, hv4⟩
      · rw [h1] at hm3
        exact Or.inl (mem_storeRemove_iff.mp hm3)
      · rw [h1] at hm3
        rcases mem_storeSet_elim hm3 with he2 | hpair
        · exact Or.inr ⟨v, h1, he2, hv1, hv2, hv3, hv4⟩
        · exact Or.inl hpair
  have hnd1 : (L1.map Prod.fst).Nodup := by
    rcases hL1 with h1 | ⟨v, h1, _⟩
    · rw [h1]
      exact keysNodup_remove _ _ hInv.lkeys
    · rw [h1]
      exact keysNodup_set _ _ _ hInv.lkeys
  have hnd2 : ((if b then storeRemove L1 sk else L1).map Prod.fst).Nodup := by
    split
    · exact keysNodup_remove _ _ hnd1
    · exact hnd1
  have hl1 := keysNodup_set _ dk rec hnd2
  have hwf1 : ∀ kl, kl ∈ storeSet (if b then storeRemove L1 sk else L1) dk rec →
      kl.2.status = "Active" → wfActiveEntry kl := by
    intro kl hm hst2
    rcases hMem kl hm hst2 with ⟨hm0, _⟩ | ⟨v, _, hkl, _, _, hv3, hv4⟩
    · exact hInv.wfActive kl hm0 hst2
    · rw [hkl]
      exact ⟨hwk, hv3, hv4⟩
  have hce1 : ∀ kl, kl ∈ storeSet (if b then storeRemove L1 sk else L1) dk rec →
      kl.2.status = "Active" → (storeGet s.collections kl.2.collection).isSome := by
    intro kl hm hst2
    rcases hMem kl hm hst2 with ⟨hm0, _⟩ | ⟨v, _, hkl, _, hv2, _, _⟩
    · exact hInv.collExists kl hm0 hst2
    · rw [hkl]
      show (storeGet s.collections v.collection).isSome
      rw [hv2, hc]
      rfl
  have hothers : ∀ ac, ac ∈ s.collections → ac.1 ≠ a →
      CollInv (storeSet (if b then storeRemove L1 sk else L1) dk rec) ac.1 ac.2 := by
    intro ac hm hne
    refine collInv_of_agree (hInv.colls ac hm) ?_ ?_
    · intro k hk
      obtain ⟨l2, hg2, hst2, hcol2⟩ :=
        activeFor_def.mp ((hInv.colls ac hm).entriesActive k hk)
      have hwk2 : wfKey k := (hInv.wfActive (k, l2) (mem_of_storeGet hg2) hst2).1
      have hkK : k ≠ K := by
        intro he
        rw [he, hg] at hg2
        have h3 := Option.some.inj hg2
        rw [← h3, hcol] at hcol2
        exact hne hcol2.symm
      exact hGet k hwk2 hkK
    · intro kl hm2 hst2 hcol2
      rcases hMem kl hm2 hst2 with ⟨hm0, _⟩ | ⟨v, _, hkl, _, hv2, _, _⟩
      · exact (hInv.colls ac hm).complete kl hm0 hst2 hcol2
      · rw [hkl] at hcol2
        exact absurd ((show v.collection = a from hv2).symm.trans hcol2)
          (fun hh => hne hh.symm)
  rcases hL1 with h1 | ⟨v, h1, hv1, hv2, hv3, hv4⟩
  · obtain ⟨pre, post, hids⟩ := List.append_of_mem hKmem
    have hnd := hci.nodup
    rw [hids, List.nodup_middle, List.nodup_cons] at hnd
    obtain ⟨hKnotin, hnodup2⟩ := hnd
    have hmemids : ∀ k ∈ pre ++ post, k ∈ c.listingIds ∧ k ≠ K := by
      intro k hk
      refine ⟨?_, ?_⟩
      · rw [hids]
        rcases List.mem_append.mp hk with hx | hx
        · exact List.mem_append.mpr (Or.inl hx)
        · exact List.mem_append.mpr (Or.inr (List.mem_cons_of_mem _ hx))
      · intro he
        exact hKnotin (he ▸ hk)
    have hact2 : ∀ k ∈ pre ++ post,
        activeFor (storeSet (if b then storeRemove L1 sk else L1) dk rec) k a := by
      intro k hk
      obtain ⟨hkm, hkne⟩ := hmemids k hk
      obtain ⟨l2, hg2, hrest⟩ := activeFor_def.mp (hci.entriesActive k hkm)
      have hwk2 : wfKey k := (hInv.wfActive (k, l2) (mem_of_storeGet hg2) hrest.1).1
      exact activeFor_def.mpr ⟨l2, (hGet k hwk2 hkne).trans hg2, hrest⟩
    have hstale : ¬ lookActive (storeSet (if b then storeRemove L1 sk else L1) dk rec) K := by
      intro hla
      unfold lookActive at hla
      rw [hGetK, h1, storeGet_remove_self] at hla
      exact hla
    have hscan := scanLoop_one_stale
      (storeSet (if b then storeRemove L1 sk else L1) dk rec) c.standard pre post K
      (fun k2 hk2 => lookActive_of_activeFor (hact2 k2 (List.mem_append.mpr (Or.inl hk2))))
      (fun k2 hk2 => lookActive_of_activeFor (hact2 k2 (List.mem_append.mpr (Or.inr hk2))))
      hstale
    refine inv_recompute hc hl1 hInv.ckeys hInv.tokensNil hInv.standards hwf1 hce1 hothers
      ?_ ?_ hnodup2 hact2 ?_
    · rw [hids]
      exact hscan.1
    · rw [hids]
      exact hscan.2
    · intro kl hm hst2 hcol2
      rcases hMem kl hm hst2 with ⟨hm0, hneK⟩ | ⟨v, hLv, hkl, _⟩
      · have hkm := hci.complete kl hm0 hst2 hcol2
        rw [hids] at hkm
        rcases List.mem_append.mp hkm with hx | hx
        · exact List.mem_append.mpr (Or.inl hx)
        · rcases List.mem_cons.mp hx with hx2 | hx2
          · exact absurd hx2 hneK
          · exact List.mem_append.mpr (Or.inr hx2)
      · have h2 : storeGet (storeRemove s.listings K) K =
            storeGet (storeSet s.listings K v) K := by
          rw [← h1, hLv]
        rw [storeGet_remove_self, storeGet_set_self] at h2
        exact Option.noConfusion h2
  · have hact2 : ∀ k ∈ c.listingIds,
        activeFor (storeSet (if b then storeRemove L1 sk else L1) dk rec) k a := by
      intro k hk
      by_cases hkK : k = K
      · subst hkK
        refine activeFor_def.mpr ⟨v, ?_, hv1, hv2⟩
        rw [hGetK, h1, storeGet_set_self]
      · obtain ⟨l2, hg2, hrest⟩ := activeFor_def.mp (hci.entriesActive k hk)
        have hwk2 : wfKey k := (hInv.wfActive (k, l2) (mem_of_storeGet hg2) hrest.1).1
        exact activeFor_def.mpr ⟨l2, (hGet k hwk2 hkK).trans hg2, hrest⟩
    have hscan := scanLoop_allActive
      (storeSet (if b then storeRemove L1 sk else L1) dk rec) c.standard c.listingIds
      (fun k hk => lookActive_of_activeFor (hact2 k hk)) 0 ⟨0, c.listingIds, []⟩
    refine inv_recompute hc hl1 hInv.ckeys hInv.tokensNil hInv.standards hwf1 hce1 hothers
      hscan.1 hscan.2 hci.nodup hact2 ?_
    intro kl hm hst2 hcol2
    rcases hMem kl hm hst2 with ⟨hm0, _⟩ | ⟨v2, _, hkl, _⟩
    · exact hci.complete kl hm0 hst2 hcol2
    · rw [hkl]
      exact hKmem

theorem inv_sold {s : Store} (hInv : Inv s) {e : ItemSoldEvent}
    (hok : eventOk (.sold e) s) : Inv (handleItemSold e s) := by
  obtain ⟨hact, hwli⟩ := hok
  obtain ⟨l, hg, hst, hcol⟩ := activeFor_def.mp hact
  have hwf := hInv.wfActive (getListingId e.seller e.nftAddress e.tokenId, l)
    (mem_of_storeGet hg) hst
  have hgoc : getOrCreateListing s (getListingId e.seller e.nftAddress e.tokenId) = l := by
    unfold getOrCreateListing
    rw [hg]
    rfl
  simp only [sold_eq]
  rw [hgoc]
  exact inv_sold_core _ hInv hg hst hcol
    (fun k2 hk2 => wfKey_ne_suffixed hk2 hwf.1 hwli)
    (fun k2 hk2 => wfKey_ne_suffixed hk2 hwf.1 hwf.2.2)
    _ _ (show ¬ ("Sold" : String) = "Active" by decide)
    (by
      by_cases hq2 : l.quantity = e.quantity
      · exact Or.inl (if_pos hq2)
      · exact Or.inr ⟨{ l with quantity := l.quantity - e.quantity }, if_neg hq2, hst, hcol,
          hwf.2.1, hwf.2.2⟩)

theorem inv_empty : Inv emptyStore := by
  refine ⟨List.nodup_nil, List.nodup_nil, rfl, ?_, ?_, ?_, ?_⟩ <;>
    intro x hx <;> exact absurd hx (List.not_mem_nil _)

theorem inv_step {s : Store} {e : Event} (hInv : Inv s) (hok : eventOk e s) :
    Inv (processEvent e s) := by
  cases e with
  | listed e => exact inv_listed hInv hok
  | updated e => exact inv_updated hInv hok
  | canceled e => exact inv_canceled hInv hok
  | sold e => exact inv_sold hInv hok

theorem inv_processEvents {es : List Event} {s : Store} (hInv : Inv s)
    (hadm : Admissible s es) : Inv (processEvents es s) := by
  induction es generalizing s with
  | nil => exact hInv
  | cons e es ih =>
    obtain ⟨hok, hadm2⟩ := hadm
    show Inv (processEvents es (processEvent e s))
    exact ih (inv_step hInv hok) hadm2

theorem floor_eq_activeFloor {s : Store} (hInv : Inv s) {a : String} {c : Collection}
    (hc : storeGet s.collections a = some c) : c.floorPrice = activeFloor s a := by
  have hci := hInv.colls (a, c) (mem_of_storeGet hc)
  have hFnd : ((s.listings.filter
      (fun p => p.2.status == "Active" && p.2.collection == a)).map Prod.fst).Nodup :=
    ((List.filter_sublist s.listings).map Prod.fst).nodup hInv.lkeys
  have hperm : c.listingIds.Perm ((s.listings.filter
      (fun p => p.2.status == "Active" && p.2.collection == a)).map Prod.fst) := by
    rw [List.perm_ext_iff_of_nodup hci.nodup hFnd]
    intro k
    constructor
    · intro hk
      obtain ⟨l2, hg2, hst2, hcol2⟩ := activeFor_def.mp (hci.entriesActive k hk)
      refine List.mem_map.mpr ⟨(k, l2), ?_, rfl⟩
      refine List.mem_filter.mpr ⟨mem_of_storeGet hg2, ?_⟩
      simp [hst2, hcol2]
    · intro hk
      obtain ⟨p, hpF, hpk⟩ := List.mem_map.mp hk
      have hpf := List.mem_filter.mp hpF
      have hpred := hpf.2
      simp only [Bool.and_eq_true, beq_iff_eq] at hpred
      rw [← hpk]
      exact hci.complete p hpf.1 hpred.1 hpred.2
  have hmapeq : ((s.listings.filter
      (fun p => p.2.status == "Active" && p.2.collection == a)).map Prod.fst).map
        (priceOf s.listings) = activePrices s a := by
    unfold activePrices
    rw [List.map_map]
    apply List.map_congr_left
    intro p hp
    have hpf := (List.mem_filter.mp hp).1
    show priceOf s.listings p.1 = p.2.pricePerItem
    unfold priceOf
    rw [storeGet_of_mem hInv.lkeys hpf]
    rfl
  have hpos : ∀ x ∈ c.listingIds.map (priceOf s.listings), 0 < x := by
    intro x hx
    obtain ⟨k, hk, hkx⟩ := List.mem_map.mp hx
    obtain ⟨l2, hg2, hst2, hcol2⟩ := activeFor_def.mp (hci.entriesActive k hk)
    have hw := hInv.wfActive (k, l2) (mem_of_storeGet hg2) hst2
    rw [← hkx]
    unfold priceOf
    rw [hg2]
    exact hw.2.1
  rw [hci.floorFold, foldl_sentinelMin_eq_minOrZero hpos]
  unfold activeFloor
  rw [← hmapeq]
  exact minOrZero_perm (hperm.map (priceOf s.listings))

/-- C1 (amended): floor correctness holds for admissible event sequences from
the empty store, where per `eventOk`: every ItemListed targets a key with no
stored listing, carries a positive `pricePerItem`, and has separator-free
seller/contract/tokenId/blockTimestamp strings; every ItemUpdated targets a
stored Active listing of the event's own contract, carries a positive
`pricePerItem`, and has a separator-free blockTimestamp string; every
ItemCanceled targets a stored Active listing of the event's own contract; and
every ItemSold targets a stored Active listing of the event's own contract and
has a separator-free logIndex string.  For every collection stored after
processing such a sequence, `floorPrice` equals the minimum `pricePerItem`
over all stored listings with status Active referencing that collection, or
zero if there are none.  (The unconditional claim is refuted by
`C1_floor_counterexample`: a relist overwrites without recomputing, leaving a
stale floor.  Update positivity is also necessary: a zero-price update of a
stored Active listing leaves the floor above the Active minimum.) -/
theorem C1_floor_correct_admissible (es : List Event)
    (hadm : Admissible emptyStore es) (a : String) (c : Collection)
    (hc : storeGet (processEvents es emptyStore).collections a = some c) :
    c.floorPrice = activeFloor (processEvents es emptyStore) a :=
  floor_eq_activeFloor (inv_processEvents inv_empty hadm) hc

theorem C1_floor_correct_admissible_witness :
    Admissible emptyStore [Event.listed ⟨"s", "c", 1, 1, 5, 0, 100⟩] ∧
    storeGet (processEvents [Event.listed ⟨"s", "c", 1, 1, 5, 0, 100⟩]
      emptyStore).collections "c" = some ⟨"", "", 5, 1, ["s-c-1"]⟩ ∧
    (⟨"", "", 5, 1, ["s-c-1"]⟩ : Collection).floorPrice =
      activeFloor (processEvents [Event.listed ⟨"s", "c", 1, 1, 5, 0, 100⟩] emptyStore) "c" :=
  ⟨⟨⟨rfl, by decide, by decide, by decide, by decide, by decide⟩, trivial⟩,
   by decide,
   C1_floor_correct_admissible [Event.listed ⟨"s", "c", 1, 1, 5, 0, 100⟩]
     ⟨⟨rfl, by decide, by decide, by decide, by decide, by decide⟩, trivial⟩
     "c" ⟨"", "", 5, 1, ["s-c-1"]⟩ (by decide)⟩

end TreasureMarketplace
